import Mathlib

/-
Verification of the Connect Game core (src/js/connect-game.js).

This file gives a shallow embedding in Lean 4 of the game-state model,
move validation, gravity simulation, win detection and the Offensive AI
strategy of the Connect Game, and proves the behavioural claims stated
about them.

Modelling conventions:
- JS `null` board cells are `Option.none`; a cell holding player index
  `i` is `some i`.
- JS numbers used as coordinates are `Int` (loop deltas go negative);
  board storage is indexed by `Nat`.
- The JS field `gravityRotation` is called `gravityRot` here, and the
  class `ConnectGame`'s fields are the fields of the `Game` structure.
- The unbounded `while` loops of `applyGravity` and `getGravityTarget`
  are embedded with explicit fuel; `applyGravityTotal` instantiates the
  fuel with a bound (`potential g + 1`) that is proved sufficient
  (`applyGravityLoop_total`), so the embedded function is total exactly
  like the JS function, which always terminates.
- `Math.random` in the `random` rotation mode is modelled by an explicit
  `rnd : Dir` argument threaded through `makeMove`; theorems quantify
  over it.
-/

/-- Gravity direction, JS strings 'down' / 'up' / 'right' / 'left'. -/
inductive Dir where
  | down
  | up
  | right
  | left
deriving DecidableEq, Repr

/-- Gravity rotation mode, JS strings 'none' / 'clockwise' / 'counterclockwise' / 'random'. -/
inductive RotMode where
  | none
  | clockwise
  | counterclockwise
  | random
deriving DecidableEq, Repr

/-- The JS `gravityRotation` configuration object `{turns, mode}`. -/
structure GravityRot where
  turns : Nat
  mode : RotMode
deriving DecidableEq, Repr

/-- The `Player` class: index, color, type ('human'/'ai'), aiStrategy id, team. -/
structure Player where
  index : Nat
  color : String
  type : String
  aiStrategy : String
  team : Option Nat
deriving DecidableEq, Repr

/-- Uppercase hex rendering of a Nat, JS `index.toString(16).toUpperCase()`. -/
def toHexUpper (n : Nat) : String :=
  String.mk ((Nat.toDigits 16 n).map Char.toUpper)

/-- The `Player.getName` method. -/
def Player.getName (pl : Player) : String :=
  match pl.team with
  | some t => "Team " ++ toString (t + 1) ++ " - Player " ++ toHexUpper pl.index
  | none => "Player " ++ toHexUpper pl.index

/-- Board representation: `height` rows of `width` cells. -/
abbrev Board := List (List (Option Nat))

/-- The `ConnectGame` class state.  JS field `gravityRotation` is `gravityRot`. -/
structure Game where
  width : Nat
  height : Nat
  winLength : Nat
  gravity : Bool
  players : List Player
  gravityRot : Option GravityRot
  teamCollaboration : Bool
  board : Board
  currentPlayerIndex : Nat
  gameOver : Bool
  winner : Option String
  winningCells : List (Int × Int)
  turnCount : Nat
  gravityDirection : Dir
deriving DecidableEq, Repr

/-- Read `board[r][c]`; out-of-range coordinates read as empty (the JS code
always guards reads with the same bounds checks before accessing the array). -/
def cellAt (g : Game) (r c : Int) : Option Nat :=
  if 0 ≤ r ∧ r < (g.height : Int) ∧ 0 ≤ c ∧ c < (g.width : Int) then
    ((g.board.get? r.toNat).getD []).getD c.toNat none
  else none

/-- Write `board[r][c] = v` (positional `List.set`; no-op out of range, the JS
code only ever writes in-range cells). -/
def setCell (b : Board) (r c : Nat) (v : Option Nat) : Board :=
  match b.get? r with
  | some row => b.set r (row.set c v)
  | none => b

/-- The board has exactly the dimensions recorded in the game state.  The JS
constructor and `reset` always build such a board. -/
def shaped (g : Game) : Prop :=
  g.board.length = g.height ∧ ∀ row ∈ g.board, row.length = g.width

instance (g : Game) : Decidable (shaped g) := by
  unfold shaped; infer_instance

/-- The `reset()` method. -/
def resetGame (g : Game) : Game :=
  { g with
    board := List.replicate g.height (List.replicate g.width none)
    currentPlayerIndex := 0
    gameOver := false
    winner := none
    winningCells := []
    turnCount := 0
    gravityDirection := Dir.down }

/-- The `directions` array of `rotateGravityIfNeeded`. -/
def dirOrder : List Dir := [Dir.down, Dir.right, Dir.up, Dir.left]

/-- Clockwise rotation: `directions[(indexOf(current) + 1) % 4]`. -/
def rotCW (d : Dir) : Dir :=
  (dirOrder.get? ((dirOrder.indexOf d + 1) % 4)).getD Dir.down

/-- Counterclockwise rotation: `directions[(indexOf(current) + 3) % 4]`. -/
def rotCCW (d : Dir) : Dir :=
  (dirOrder.get? ((dirOrder.indexOf d + 3) % 4)).getD Dir.down

/-- Per-direction deltas `(dr, dc)` as in the JS switch statements. -/
def dirDelta : Dir → Int × Int
  | Dir.down => (1, 0)
  | Dir.up => (-1, 0)
  | Dir.right => (0, 1)
  | Dir.left => (0, -1)

/-- One step loop body of `getGravityTarget`: advance while the next cell
along the direction is inside the grid and empty. -/
def gravGo (g : Game) (dr dc : Int) : Nat → Int → Int → Int × Int
  | 0, r, c => (r, c)
  | fuel + 1, r, c =>
    let nr := r + dr
    let nc := c + dc
    if nr < 0 ∨ (g.height : Int) ≤ nr ∨ nc < 0 ∨ (g.width : Int) ≤ nc ∨
        cellAt g nr nc ≠ none then
      (r, c)
    else
      gravGo g dr dc fuel nr nc

/-- The `getGravityTarget(row, col)` method.  The JS `while (true)` loop is
run with fuel `height + width`, which is enough for it to reach its fixed
point (each iteration moves one cell further along the direction). -/
def getGravityTarget (g : Game) (r c : Int) : Int × Int :=
  if g.gravity = false then (r, c)
  else
    let d := dirDelta g.gravityDirection
    gravGo g d.1 d.2 (g.height + g.width) r c

/-- Row-major list of all grid coordinates, the iteration order of the JS
nested `for` loops. -/
def posList (g : Game) : List (Nat × Nat) :=
  (List.range g.height).flatMap (fun r => (List.range g.width).map (fun c => (r, c)))

/-- Occupied positions collected row-major, as in `applyGravity`. -/
def collectPositions (g : Game) : List (Nat × Nat) :=
  (posList g).filter (fun rc => cellAt g rc.1 rc.2 ≠ none)

/-- Stable insertion of `x` into `l`: `x` is placed before the first `y`
with `pref x y`. -/
def insBy (pref : α → α → Bool) (x : α) : List α → List α
  | [] => [x]
  | y :: ys => if pref x y then x :: y :: ys else y :: insBy pref x ys

/-- Stable insertion sort; `pref x y` means `x` may come before `y`. -/
def sortByPref (pref : α → α → Bool) : List α → List α
  | [] => []
  | x :: xs => insBy pref x (sortByPref pref xs)

/-- The position sort of `applyGravity`: the JS stable `Array.sort` with
comparators `b[0]-a[0]` (down), `a[0]-b[0]` (up), `b[1]-a[1]` (right),
`a[1]-b[1]` (left), rendered as a stable insertion sort. -/
def sortPositions (d : Dir) (ps : List (Nat × Nat)) : List (Nat × Nat) :=
  match d with
  | Dir.down => sortByPref (fun a b => decide (b.1 ≤ a.1)) ps
  | Dir.up => sortByPref (fun a b => decide (a.1 ≤ b.1)) ps
  | Dir.right => sortByPref (fun a b => decide (b.2 ≤ a.2)) ps
  | Dir.left => sortByPref (fun a b => decide (a.2 ≤ b.2)) ps

/-- Inner body of the `applyGravity` pass: skip re-emptied cells, move the
piece to its gravity target, report whether anything changed. -/
def gravPassStep (g : Game) (pos : Nat × Nat) : Game × Bool :=
  match cellAt g pos.1 pos.2 with
  | none => (g, false)
  | some v =>
    let t := getGravityTarget g pos.1 pos.2
    if t.1 ≠ (pos.1 : Int) ∨ t.2 ≠ (pos.2 : Int) then
      ({ g with board := setCell (setCell g.board t.1.toNat t.2.toNat (some v)) pos.1 pos.2 none },
       true)
    else (g, false)

/-- Left fold of `gravPassStep` over the (sorted) position list, threading
the game state and the `changed` flag, as the JS `for` loop does. -/
def gravPassFold : Game × Bool → List (Nat × Nat) → Game × Bool
  | acc, [] => acc
  | acc, pos :: ps =>
    let s := gravPassStep acc.1 pos
    gravPassFold (s.1, acc.2 || s.2) ps

/-- One full pass of `applyGravity`'s outer `while` loop: collect occupied
positions, sort them along the gravity direction, move each to its target. -/
def gravPass (g : Game) : Game × Bool :=
  gravPassFold (g, false) (sortPositions g.gravityDirection (collectPositions g))

/-- The `while (changed)` loop of `applyGravity`, with fuel. -/
def applyGravityLoop : Nat → Game → Option Game
  | 0, _ => none
  | fuel + 1, g =>
    let p := gravPass g
    if p.2 then applyGravityLoop fuel p.1 else some p.1

/-- Distance still available along the gravity direction from a cell; the
termination measure of `applyGravity`. -/
def restDist (d : Dir) (h w r c : Nat) : Nat :=
  match d with
  | Dir.down => h - 1 - r
  | Dir.up => r
  | Dir.right => w - 1 - c
  | Dir.left => c

/-- Sum of a cell-indexed function over an `h × w` grid. -/
def gridSum (h w : Nat) (f : Nat → Nat → Nat) : Nat :=
  ∑ p ∈ Finset.range h ×ˢ Finset.range w, f p.1 p.2

/-- Total remaining travel of all pieces; strictly decreases on every pass
of `applyGravity` that changes the board. -/
def potential (g : Game) : Nat :=
  gridSum g.height g.width (fun r c =>
    if cellAt g r c ≠ none then restDist g.gravityDirection g.height g.width r c else 0)

/-- The `applyGravity()` method.  The JS loop always terminates; here the
fuel `potential g + 1` is proved sufficient in `applyGravityLoop_total`. -/
def applyGravityTotal (g : Game) : Game :=
  if g.gravity = false then g
  else (applyGravityLoop (potential g + 1) g).getD g

/-- The `isValidMove(row, col)` method. -/
def isValidMove (g : Game) (r c : Int) : Bool :=
  if g.gameOver then false
  else if c < 0 ∨ (g.width : Int) ≤ c ∨ r < 0 ∨ (g.height : Int) ≤ r then false
  else if g.gravity then
    let t := getGravityTarget g r c
    if t.1 ≠ r ∨ t.2 ≠ c then false
    else decide (cellAt g r c = none)
  else decide (cellAt g r c = none)

/-- Team of the player with a given index (`players[p].team`); indices
outside the roster (which would throw in JS) read as teamless. -/
def teamOf (g : Game) (p : Nat) : Option Nat :=
  match g.players.get? p with
  | some pl => pl.team
  | none => none

/-- Display name of the player with a given index. -/
def playerNameAt (g : Game) (p : Nat) : String :=
  match g.players.get? p with
  | some pl => pl.getName
  | none => ""

/-- The `countsTowardWin` test of `checkWin`: same player always counts;
with team collaboration, a teammate on the same non-null team counts. -/
def countsToward (g : Game) (p q : Nat) : Bool :=
  decide (q = p) ||
    (g.teamCollaboration && decide (teamOf g p ≠ none) && decide (teamOf g q = teamOf g p))

/-- The cell-continuation test of `checkWin` as a Bool: some cell at `pos`
counts toward a win originating with player `p`. -/
def cellMatches (g : Game) (p : Nat) (pos : Int × Int) : Bool :=
  match cellAt g pos.1 pos.2 with
  | some q => countsToward g p q
  | none => false

/-- The run of cells collected by `checkWin` starting at `(r, c)` (holding
player `p`) in direction `(dr, dc)`: the start cell followed by up to
`winLength - 1` consecutive cells, stopping at the first cell that is out
of bounds, empty, or does not count toward the win. -/
def runCells (g : Game) (p : Nat) (r c : Nat) (dr dc : Int) : List (Int × Int) :=
  ((r : Int), (c : Int)) ::
    (((List.range (g.winLength - 1)).map
        (fun i : Nat =>
          ((r : Int) + dr * ((i : Int) + 1), (c : Int) + dc * ((i : Int) + 1)))).takeWhile
      (fun pos => cellMatches g p pos))

/-- The four scan directions of `checkWin` (and of the AI evaluators):
horizontal, vertical, diagonal down-right, diagonal down-left. -/
def dirs4 : List (Int × Int) := [(0, 1), (1, 0), (1, 1), (1, -1)]

/-- Result object returned by `checkWin`. -/
structure WinResult where
  winner : String
  cells : List (Int × Int)
  playerIndex : Nat
deriving DecidableEq, Repr

/-- Winner naming of `checkWin`: the team label if the originating player
has a team, else the player's own name. -/
def mkWinResult (g : Game) (p : Nat) (cells : List (Int × Int)) : WinResult :=
  { winner :=
      match teamOf g p with
      | some t => "Team " ++ toString (t + 1)
      | none => playerNameAt g p
    cells := cells
    playerIndex := p }

/-- The `checkWin()` method: row-major scan over cells, then over the four
directions, returning the first run of length at least `winLength`. -/
def checkWin (g : Game) : Option WinResult :=
  (posList g).findSome? (fun rc =>
    match cellAt g rc.1 rc.2 with
    | none => none
    | some p =>
      dirs4.findSome? (fun d =>
        let cells := runCells g p rc.1 rc.2 d.1 d.2
        if g.winLength ≤ cells.length then some (mkWinResult g p cells) else none))

/-- The `isBoardFull()` method. -/
def isBoardFull (g : Game) : Bool :=
  g.board.all (fun row => row.all (fun cell => cell ≠ none))

/-- The `rotateGravityIfNeeded()` method; `rnd` stands for the direction
`Math.random` would pick in `random` mode. -/
def rotateGravityIfNeeded (g : Game) (rnd : Dir) : Game :=
  match g.gravityRot with
  | none => g
  | some rot =>
    if rot.mode = RotMode.none then g
    else
      let g1 := { g with turnCount := g.turnCount + 1 }
      if g1.turnCount % rot.turns = 0 then
        let newDir :=
          if rot.mode = RotMode.random then rnd
          else if rot.mode = RotMode.clockwise then rotCW g1.gravityDirection
          else rotCCW g1.gravityDirection
        applyGravityTotal { g1 with gravityDirection := newDir }
      else g1

/-- The `makeMove(row, col)` method, returning the new state and the JS
boolean result. -/
def makeMove (g : Game) (rnd : Dir) (r c : Int) : Game × Bool :=
  if isValidMove g r c = false then (g, false)
  else
    let g1 := { g with board := setCell g.board r.toNat c.toNat (some g.currentPlayerIndex) }
    match checkWin g1 with
    | some res =>
      ({ g1 with gameOver := true, winner := some res.winner, winningCells := res.cells }, true)
    | none =>
      if isBoardFull g1 then ({ g1 with gameOver := true, winner := none }, true)
      else
        let g2 := { g1 with currentPlayerIndex := (g1.currentPlayerIndex + 1) % g1.players.length }
        (rotateGravityIfNeeded g2 rnd, true)

/-- Sequential application of a list of `makeMove` calls; each entry carries
the random direction and the coordinates. -/
def playMoves (g : Game) : List (Dir × Int × Int) → Game
  | [] => g
  | m :: ms => playMoves (makeMove g m.1 m.2.1 m.2.2).1 ms

/-- Number of successful `makeMove` calls in a sequence. -/
def countSucc (g : Game) : List (Dir × Int × Int) → Nat
  | [] => 0
  | m :: ms =>
    let s := makeMove g m.1 m.2.1 m.2.2
    (if s.2 then 1 else 0) + countSucc s.1 ms

/-- Number of successful `makeMove` calls in a sequence that did not end the
game (the calls after which the turn actually advanced). -/
def countCompleted (g : Game) : List (Dir × Int × Int) → Nat
  | [] => 0
  | m :: ms =>
    let s := makeMove g m.1 m.2.1 m.2.2
    (if s.2 && !s.1.gameOver then 1 else 0) + countCompleted s.1 ms

/-- Whether the gravity rotation schedule is active (configured with a mode
other than 'none'). -/
def rotActive (g : Game) : Bool :=
  match g.gravityRot with
  | none => false
  | some rot => decide (rot.mode ≠ RotMode.none)

/-- The AI helper `getValidMoves(game)`. -/
def getValidMoves (g : Game) : List (Nat × Nat) :=
  if g.gravity then
    let d := dirDelta g.gravityDirection
    (posList g).filter (fun rc =>
      decide (cellAt g rc.1 rc.2 = none) &&
        (let nr := (rc.1 : Int) + d.1
         let nc := (rc.2 : Int) + d.2
         let isAtEdge :=
           decide (nr < 0) || decide ((g.height : Int) ≤ nr) ||
             decide (nc < 0) || decide ((g.width : Int) ≤ nc)
         isAtEdge || (!isAtEdge && decide (cellAt g nr nc ≠ none))))
  else (posList g).filter (fun rc => decide (cellAt g rc.1 rc.2 = none))

/-- The AI helper `checkWinningMove(game, row, col, playerIndex)`: place the
piece, run `checkWin`, undo; returns the probe result and the state of the
game after the call. -/
def checkWinningMove (g : Game) (r c : Int) (pi : Nat) : Option WinResult × Game :=
  let g1 := { g with board := setCell g.board r.toNat c.toNat (some pi) }
  let res := checkWin g1
  (res, { g1 with board := setCell g1.board r.toNat c.toNat none })

/-- The same-player-or-teammate test used by the AI chain counters
(`cell === playerIndex || sameTeam`); unlike `checkWin` it ignores the
`teamCollaboration` flag. -/
def aiMatches (g : Game) (pi q : Nat) : Bool :=
  decide (q = pi) || (decide (teamOf g pi ≠ none) && decide (teamOf g q = teamOf g pi))

/-- The same-player-or-teammate test of the AI chain counters as a Bool on
a board position. -/
def cellMatchesAI (g : Game) (pi : Nat) (pos : Int × Int) : Bool :=
  match cellAt g pos.1 pos.2 with
  | some q => aiMatches g pi q
  | none => false

/-- Offsets `1 .. winLength-1` scanned by the AI chain loops. -/
def chainOffsets (g : Game) : List Nat :=
  (List.range (g.winLength - 1)).map (fun i => i + 1)

/-- One signed direction of `evaluateMove`'s chain count: consecutive cells
from the move along `sgn * (dr, dc)` that hold the player or a teammate. -/
def chainCount (g : Game) (pi : Nat) (r c dr dc sgn : Int) : Nat :=
  ((chainOffsets g).takeWhile (fun i : Nat =>
      cellMatchesAI g pi (r + dr * (i : Int) * sgn, c + dc * (i : Int) * sgn))).length

/-- One signed direction of `evaluateMove`'s `spacesAvailable` count: cells
that are in bounds and empty, own, or teammate-held. -/
def spaceCount (g : Game) (pi : Nat) (r c dr dc sgn : Int) : Nat :=
  ((chainOffsets g).takeWhile (fun i : Nat =>
      let nr := r + dr * (i : Int) * sgn
      let nc := c + dc * (i : Int) * sgn
      decide (0 ≤ nr) && decide (nr < (g.height : Int)) &&
        decide (0 ≤ nc) && decide (nc < (g.width : Int)) &&
        (match cellAt g nr nc with
         | none => true
         | some q => aiMatches g pi q))).length

/-- Direction loop of `OffensiveAI.evaluateMove`, threading the running
`maxExtension` and returning 1000 as soon as a direction can win. -/
def evalDirs (g : Game) (pi : Nat) (r c : Int) : List (Int × Int) → Nat → Nat
  | [], maxExt => if 0 < maxExt then maxExt else 1
  | d :: ds, maxExt =>
    let chain := chainCount g pi r c d.1 d.2 (-1) + chainCount g pi r c d.1 d.2 1
    if g.winLength ≤ chain + 1 then 1000
    else
      let spaces := 1 + spaceCount g pi r c d.1 d.2 (-1) + spaceCount g pi r c d.1 d.2 1
      if g.winLength ≤ spaces then evalDirs g pi r c ds (max maxExt (chain * 10 + spaces))
      else evalDirs g pi r c ds maxExt

/-- The `OffensiveAI.evaluateMove(game, move, playerIndex)` method. -/
def evaluateMove (g : Game) (m : Nat × Nat) (pi : Nat) : Nat :=
  evalDirs g pi (m.1 : Int) (m.2 : Int) dirs4 0

/-- The max-score selection loop of `OffensiveAI.getMove`; `bestScore`
starts at -1 and only a strictly greater score replaces the best move. -/
def pickBest (g : Game) (pi : Nat) : List (Nat × Nat) → Option (Nat × Nat) × Int → Option (Nat × Nat) × Int
  | [], acc => acc
  | m :: ms, acc =>
    let s : Int := evaluateMove g m pi
    if acc.2 < s then pickBest g pi ms (some m, s) else pickBest g pi ms acc

/-- The `OffensiveAI.getMove(game, playerIndex)` method; returns `none` only
when there are no valid moves (where the JS code would index an empty
array). -/
def OffensiveAI.getMove (g : Game) (pi : Nat) : Option (Nat × Nat) :=
  (pickBest g pi (getValidMoves g) (none, -1)).1

/-- Count of cells currently holding player index `i`. -/
def countPieces (g : Game) (i : Nat) : Nat :=
  gridSum g.height g.width (fun r c => if cellAt g r c = some i then 1 else 0)

/-- Specification predicate (for claim statements): the cell `(r, c)` is a
legal placement target in the spec's sense, namely empty, and when gravity
is on, the adjacent cell in the gravity direction is off the grid or
occupied. -/
def legalCellSpec (g : Game) (r c : Nat) : Prop :=
  cellAt g r c = none ∧
    (g.gravity = true →
      ((r : Int) + (dirDelta g.gravityDirection).1 < 0 ∨
        (g.height : Int) ≤ (r : Int) + (dirDelta g.gravityDirection).1 ∨
        (c : Int) + (dirDelta g.gravityDirection).2 < 0 ∨
        (g.width : Int) ≤ (c : Int) + (dirDelta g.gravityDirection).2 ∨
        cellAt g ((r : Int) + (dirDelta g.gravityDirection).1)
          ((c : Int) + (dirDelta g.gravityDirection).2) ≠ none))

instance (g : Game) (r c : Nat) : Decidable (legalCellSpec g r c) := by
  unfold legalCellSpec; infer_instance

/-- Specification predicate: starting at `(r, c)`, all `winLength`
consecutive cells in direction `d` count toward a win originating with
player `p` (the counting rule of `checkWin`, including team collaboration). -/
def runMatchesM (g : Game) (p : Nat) (r c : Nat) (d : Int × Int) : Prop :=
  ∀ i < g.winLength,
    cellMatches g p ((r : Int) + d.1 * (i : Int), (c : Int) + d.2 * (i : Int)) = true

instance (g : Game) (p : Nat) (r c : Nat) (d : Int × Int) :
    Decidable (runMatchesM g p r c d) := by
  unfold runMatchesM; infer_instance

/-- Specification predicate: a qualifying winning run (under `checkWin`'s
counting rule) starts at `(r, c)` in direction `d`. -/
def winRunAt (g : Game) (r c : Nat) (d : Int × Int) : Prop :=
  match cellAt g (r : Int) (c : Int) with
  | some p => runMatchesM g p r c d
  | none => False

instance (g : Game) (r c : Nat) (d : Int × Int) : Decidable (winRunAt g r c d) := by
  unfold winRunAt
  cases cellAt g (r : Int) (c : Int) with
  | none => exact isFalse (fun h => h)
  | some p => exact inferInstanceAs (Decidable (runMatchesM g p r c d))

/-- Specification predicate: `winLength` consecutive cells starting at
`(r, c)` in direction `d` all hold player `p` themself. -/
def samePlayerRunAt (g : Game) (r c : Nat) (d : Int × Int) (p : Nat) : Prop :=
  ∀ i < g.winLength,
    cellAt g ((r : Int) + d.1 * (i : Int)) ((c : Int) + d.2 * (i : Int)) = some p

instance (g : Game) (r c : Nat) (d : Int × Int) (p : Nat) :
    Decidable (samePlayerRunAt g r c d p) := by
  unfold samePlayerRunAt; infer_instance

/-- Specification predicate: placing player `pi` at the empty cell `m`
completes a contiguous run of `winLength` cells (own or teammate pieces,
with `m` as the `k`-th cell) along one of the four scan directions. -/
def completesWin (g : Game) (m : Nat × Nat) (pi : Nat) : Prop :=
  ∃ d ∈ dirs4, ∃ k < g.winLength, ∀ i < g.winLength,
    i = k ∨
      cellMatchesAI g pi
        ((m.1 : Int) + d.1 * ((i : Int) - (k : Int)),
         (m.2 : Int) + d.2 * ((i : Int) - (k : Int))) = true

instance (g : Game) (m : Nat × Nat) (pi : Nat) : Decidable (completesWin g m pi) := by
  unfold completesWin; infer_instance

/-- Convenience builder for a concrete player (only the team matters to the
core rules). -/
def mkPlayer (i : Nat) (t : Option Nat) : Player :=
  { index := i, color := "", type := "human", aiStrategy := "random", team := t }

/-- Convenience builder for a freshly reset game with a given configuration. -/
def testGame (w h wl : Nat) (grav : Bool) (ps : List Player) (rot : Option GravityRot)
    (tc : Bool) : Game :=
  resetGame
    { width := w, height := h, winLength := wl, gravity := grav, players := ps,
      gravityRot := rot, teamCollaboration := tc, board := [], currentPlayerIndex := 0,
      gameOver := false, winner := none, winningCells := [], turnCount := 0,
      gravityDirection := Dir.down }

/-- Concrete game for the turn-count counterexample: no gravity rotation
configured. -/
def cexNoRot : Game := testGame 3 3 3 false [mkPlayer 0 none, mkPlayer 1 none] none true

/-- Concrete game with clockwise gravity rotation every turn. -/
def gRotCW : Game :=
  testGame 3 3 3 false [mkPlayer 0 none, mkPlayer 1 none]
    (some { turns := 1, mode := RotMode.clockwise }) true

/-- Concrete 3×3 gravity game used as a legality witness. -/
def gValid3 : Game := testGame 3 3 3 true [mkPlayer 0 none, mkPlayer 1 none] none true

/-- Concrete board with a horizontal four-in-a-row of player 0. -/
def gRun4 : Game :=
  { testGame 4 1 4 false [mkPlayer 0 none, mkPlayer 1 none] none true with
    board := [[some 0, some 0, some 0, some 0]] }

/-- Concrete board whose longest run has length `winLength - 1`. -/
def gRun3 : Game :=
  { testGame 4 1 4 false [mkPlayer 0 none, mkPlayer 1 none] none true with
    board := [[some 0, some 0, some 0, none]] }

/-- Concrete board where two teammates jointly occupy four contiguous cells. -/
def gTeamW : Game :=
  { testGame 4 1 4 false [mkPlayer 0 (some 0), mkPlayer 1 (some 0)] none true with
    board := [[some 0, some 0, some 1, some 0]] }

/-- Concrete position where exactly one valid move completes four in a row. -/
def gOffW : Game :=
  { testGame 4 1 4 false [mkPlayer 0 none, mkPlayer 1 none] none true with
    board := [[some 0, some 0, some 0, none]] }

/-- Concrete game used as the probe-restoration witness. -/
def gProbe : Game := testGame 3 3 3 false [mkPlayer 0 none, mkPlayer 1 none] none true

/-- Concrete gravity game with one piece off the floor. -/
def gGravW : Game :=
  { testGame 2 2 4 true [mkPlayer 0 none] none true with
    board := [[some 0, none], [none, none]] }


/-
Helper lemmas: lists, sums, and board cell access.
-/

theorem takeWhile_length_le (p : α → Bool) (l : List α) : (l.takeWhile p).length ≤ l.length :=
  List.Sublist.length_le (List.takeWhile_sublist p)

theorem takeWhile_get?_true (p : α → Bool) :
    ∀ (l : List α) (i : Nat), i < (l.takeWhile p).length → ∃ x, l.get? i = some x ∧ p x = true := by
  intro l
  induction l with
  | nil => intro i h; simp [List.takeWhile] at h
  | cons a l ih =>
    intro i h
    by_cases hpa : p a = true
    · rw [List.takeWhile_cons_of_pos hpa] at h
      cases i with
      | zero => exact ⟨a, rfl, hpa⟩
      | succ j =>
        simp only [List.length_cons, Nat.succ_lt_succ_iff] at h
        exact ih j h
    · rw [List.takeWhile_cons_of_neg (by simpa using hpa)] at h
      simp at h

theorem takeWhile_length_ge (p : α → Bool) :
    ∀ (l : List α) (n : Nat), n ≤ l.length →
      (∀ i < n, ∃ x, l.get? i = some x ∧ p x = true) → n ≤ (l.takeWhile p).length := by
  intro l
  induction l with
  | nil => intro n hlen _; simpa using hlen
  | cons a l ih =>
    intro n hlen hall
    cases n with
    | zero => exact Nat.zero_le _
    | succ m =>
      obtain ⟨x, hx, hpx⟩ := hall 0 (Nat.succ_pos m)
      have hxa : x = a := by simpa using hx.symm
      subst hxa
      rw [List.takeWhile_cons_of_pos hpx]
      simp only [List.length_cons, Nat.succ_le_succ_iff]
      refine ih m (by simpa using hlen) (fun i hi => ?_)
      have := hall (i + 1) (Nat.succ_lt_succ hi)
      simpa using this

theorem set_get?_id : ∀ (l : List α) (n : Nat) (a : α), l.get? n = some a → l.set n a = l := by
  intro l
  induction l with
  | nil => intro n a h; exact absurd h (by simp)
  | cons x l ih =>
    intro n a h
    cases n with
    | zero =>
      have hx : some x = some a := h
      have : x = a := by injection hx
      simp [this]
    | succ m =>
      have h' : l.get? m = some a := h
      simp [List.set, ih m a h']

theorem sum_update_two {β : Type} [DecidableEq β] (s : Finset β) (f1 f2 : β → Nat) (p q : β)
    (hp : p ∈ s) (hq : q ∈ s) (hpq : p ≠ q)
    (hoff : ∀ x ∈ s, x ≠ p → x ≠ q → f1 x = f2 x) :
    (∑ x ∈ s, f1 x) + (f2 p + f2 q) = (∑ x ∈ s, f2 x) + (f1 p + f1 q) := by
  have hq1 : q ∈ s.erase p := Finset.mem_erase.mpr ⟨fun h => hpq h.symm, hq⟩
  have e1 : ∑ x ∈ (s.erase p).erase q, f1 x + f1 q = ∑ x ∈ s.erase p, f1 x :=
    Finset.sum_erase_add _ _ hq1
  have e2 : ∑ x ∈ s.erase p, f1 x + f1 p = ∑ x ∈ s, f1 x :=
    Finset.sum_erase_add _ _ hp
  have e3 : ∑ x ∈ (s.erase p).erase q, f2 x + f2 q = ∑ x ∈ s.erase p, f2 x :=
    Finset.sum_erase_add _ _ hq1
  have e4 : ∑ x ∈ s.erase p, f2 x + f2 p = ∑ x ∈ s, f2 x :=
    Finset.sum_erase_add _ _ hp
  have ecg : ∑ x ∈ (s.erase p).erase q, f1 x = ∑ x ∈ (s.erase p).erase q, f2 x := by
    refine Finset.sum_congr rfl (fun x hx => ?_)
    have hx1 := Finset.mem_erase.mp hx
    have hx2 := Finset.mem_erase.mp hx1.2
    exact hoff x hx2.2 hx2.1 hx1.1
  omega

theorem mem_posList (g : Game) (rc : Nat × Nat) :
    rc ∈ posList g ↔ rc.1 < g.height ∧ rc.2 < g.width := by
  obtain ⟨r, c⟩ := rc
  simp [posList, List.mem_flatMap]

theorem cellAt_nat (g : Game) (r c : Nat) :
    cellAt g (r : Int) (c : Int) =
      if r < g.height ∧ c < g.width then ((g.board.get? r).getD []).getD c none else none := by
  unfold cellAt
  by_cases h : r < g.height ∧ c < g.width
  · rw [if_pos (by omega : 0 ≤ (r : Int) ∧ (r : Int) < (g.height : Int) ∧
      0 ≤ (c : Int) ∧ (c : Int) < (g.width : Int)), if_pos h]
    rfl
  · rw [if_neg (by omega : ¬(0 ≤ (r : Int) ∧ (r : Int) < (g.height : Int) ∧
      0 ≤ (c : Int) ∧ (c : Int) < (g.width : Int))), if_neg h]

theorem cellAt_some_entry (g : Game) (r c : Nat) (x : Nat)
    (h : cellAt g (r : Int) (c : Int) = some x) :
    r < g.height ∧ c < g.width ∧
      ∃ row, g.board.get? r = some row ∧ c < row.length ∧ row.get? c = some (some x) := by
  rw [cellAt_nat] at h
  by_cases hb : r < g.height ∧ c < g.width
  · rw [if_pos hb] at h
    refine ⟨hb.1, hb.2, ?_⟩
    cases hrow : g.board.get? r with
    | none => rw [hrow] at h; simp [List.getD] at h
    | some row =>
      rw [hrow] at h
      refine ⟨row, rfl, ?_⟩
      have h' : (row.get? c).getD none = some x := h
      cases hc : row.get? c with
      | none => rw [hc] at h'; simp at h'
      | some y =>
        rw [hc] at h'
        simp at h'
        exact ⟨List.get?_eq_some.mp hc |>.1, by rw [h']⟩
  · rw [if_neg hb] at h; exact absurd h (by simp)

theorem cellAt_nat_some_pos (g : Game) (r c : Int) (x : Nat)
    (h : cellAt g r c = some x) :
    0 ≤ r ∧ r < (g.height : Int) ∧ 0 ≤ c ∧ c < (g.width : Int) := by
  unfold cellAt at h
  by_cases hb : 0 ≤ r ∧ r < (g.height : Int) ∧ 0 ≤ c ∧ c < (g.width : Int)
  · exact hb
  · rw [if_neg hb] at h; exact absurd h (by simp)

theorem cellAt_set_other (g : Game) (b : Board) (r0 c0 : Nat) (v : Option Nat) (r c : Nat)
    (hne : (r, c) ≠ (r0, c0)) :
    cellAt { g with board := setCell b r0 c0 v } (r : Int) (c : Int) =
      cellAt { g with board := b } (r : Int) (c : Int) := by
  rw [cellAt_nat, cellAt_nat]
  by_cases hb : r < g.height ∧ c < g.width
  · rw [if_pos hb, if_pos hb]
    show (((setCell b r0 c0 v).get? r).getD []).getD c none = ((b.get? r).getD []).getD c none
    unfold setCell
    cases hrow : b.get? r0 with
    | none => rfl
    | some row =>
      by_cases hr : r = r0
      · subst hr
        have hc : c ≠ c0 := fun h => hne (by rw [h])
        rw [List.get?_set_eq_of_lt _ (List.get?_eq_some.mp hrow).1, hrow]
        show ((row.set c0 v).get? c).getD none = (row.get? c).getD none
        rw [List.get?_set_ne _ _ (fun h => hc h.symm)]
      · rw [List.get?_set_ne _ _ (fun h => hr h.symm)]
  · rw [if_neg hb, if_neg hb]

theorem cellAt_set_same (g : Game) (b : Board) (r0 c0 : Nat) (v : Option Nat)
    (row : List (Option Nat)) (hrow : b.get? r0 = some row) (hc : c0 < row.length)
    (hr : r0 < g.height) (hcw : c0 < g.width) :
    cellAt { g with board := setCell b r0 c0 v } (r0 : Int) (c0 : Int) = v := by
  rw [cellAt_nat, if_pos ⟨hr, hcw⟩]
  unfold setCell
  rw [hrow, List.get?_set_eq_of_lt _ (List.get?_eq_some.mp hrow).1]
  show ((row.set c0 v).get? c0).getD none = v
  rw [List.get?_set_eq_of_lt _ (by simpa using hc)]
  rfl

theorem shaped_board_set (g : Game) (b : Board) (r0 c0 : Nat) (v : Option Nat)
    (h : shaped { g with board := b }) : shaped { g with board := setCell b r0 c0 v } := by
  obtain ⟨hlen, hrows⟩ := h
  unfold setCell
  cases hrow : b.get? r0 with
  | none => exact ⟨hlen, hrows⟩
  | some row =>
    refine ⟨by simpa using hlen, fun row' hmem => ?_⟩
    rcases List.mem_or_eq_of_mem_set hmem with hmem' | heq
    · exact hrows row' hmem'
    · rw [heq]
      simpa using hrows row (List.get?_mem hrow)

/-
Claim C9: the immediate-win probe `checkWinningMove` restores the game
state exactly.
-/

/-- Claim C9: for every game state, every empty in-bounds cell `(row, col)`
and every player index, the immediate-win probe `checkWinningMove` (place
the piece, run `checkWin`, remove it) leaves the game state — board
included — exactly as it was before the call; being a pure function of the
state, it mutates no other field and throws no exception. -/
theorem checkWinningMove_restores (g : Game) (r c : Int) (pi : Nat)
    (hr0 : 0 ≤ r) (hrh : r < (g.height : Int)) (hc0 : 0 ≤ c) (hcw : c < (g.width : Int))
    (hempty : cellAt g r c = none) :
    (checkWinningMove g r c pi).2 = g := by
  obtain ⟨rn, rfl⟩ : ∃ rn : Nat, r = (rn : Int) := ⟨r.toNat, (Int.toNat_of_nonneg hr0).symm⟩
  obtain ⟨cn, rfl⟩ : ∃ cn : Nat, c = (cn : Int) := ⟨c.toNat, (Int.toNat_of_nonneg hc0).symm⟩
  unfold checkWinningMove
  show ({ g with board := setCell (setCell g.board _ _ (some pi)) _ _ none } : Game) = g
  have hb : setCell (setCell g.board (rn : Int).toNat (cn : Int).toNat (some pi))
      (rn : Int).toNat (cn : Int).toNat none = g.board := by
    show setCell (setCell g.board rn cn (some pi)) rn cn none = g.board
    rw [cellAt_nat, if_pos (by omega : rn < g.height ∧ cn < g.width)] at hempty
    cases hrow : g.board.get? rn with
    | none =>
      have e1 : setCell g.board rn cn (some pi) = g.board := by unfold setCell; rw [hrow]
      rw [e1]
      unfold setCell
      rw [hrow]
    | some row =>
      rw [hrow] at hempty
      by_cases hcl : cn < row.length
      · have hval : row.get? cn = some none := by
          have h' : (row.get? cn).getD none = none := hempty
          cases hg : row.get? cn with
          | none => exact absurd (List.get?_eq_none.mp hg) (by omega)
          | some y =>
            rw [hg] at h'
            simp at h'
            rw [h']
        have hlt : rn < g.board.length := (List.get?_eq_some.mp hrow).1
        have e1 : setCell g.board rn cn (some pi) = g.board.set rn (row.set cn (some pi)) := by
          unfold setCell; rw [hrow]
        rw [e1]
        unfold setCell
        rw [List.get?_set_eq_of_lt _ hlt]
        show (List.set g.board rn (row.set cn (some pi))).set rn
            ((row.set cn (some pi)).set cn none) = g.board
        rw [List.set_set, List.set_set, set_get?_id _ _ _ hval, set_get?_id _ _ _ hrow]
      · have hid1 : row.set cn (some pi) = row := List.set_eq_of_length_le (by omega)
        have hid2 : row.set cn none = row := List.set_eq_of_length_le (by omega)
        have e1 : setCell g.board rn cn (some pi) = g.board := by
          unfold setCell
          rw [hrow]
          show g.board.set rn (row.set cn (some pi)) = g.board
          rw [hid1, set_get?_id _ _ _ hrow]
        rw [e1]
        unfold setCell
        rw [hrow]
        show g.board.set rn (row.set cn none) = g.board
        rw [hid2, set_get?_id _ _ _ hrow]
  rw [hb]

/-- Witness for C9 at a concrete empty cell of a concrete game. -/
theorem checkWinningMove_restores_witness :
    cellAt gProbe 0 0 = none ∧ (checkWinningMove gProbe 0 0 1).2 = gProbe :=
  ⟨by decide,
    checkWinningMove_restores gProbe 0 0 1 (by decide) (by decide) (by decide) (by decide)
      (by decide)⟩

/-
Claim C2: characterisation of rejected moves.
-/

theorem isValidMove_true_iff (g : Game) (r c : Int) :
    isValidMove g r c = true ↔
      (g.gameOver = false ∧ 0 ≤ r ∧ r < (g.height : Int) ∧ 0 ≤ c ∧ c < (g.width : Int) ∧
        cellAt g r c = none ∧ (g.gravity = true → getGravityTarget g r c = (r, c))) := by
  unfold isValidMove
  by_cases hgo : g.gameOver = true
  · rw [if_pos hgo]
    simp [hgo]
  · have hgo' : g.gameOver = false := by simpa using hgo
    rw [if_neg hgo]
    by_cases hb : c < 0 ∨ (g.width : Int) ≤ c ∨ r < 0 ∨ (g.height : Int) ≤ r
    · rw [if_pos hb]
      constructor
      · intro hfalse
        exact absurd hfalse (by simp)
      · intro hc
        rcases hb with h | h | h | h <;> omega
    · rw [if_neg hb]
      push_neg at hb
      by_cases hgr : g.gravity = true
      · rw [if_pos hgr]
        dsimp only
        by_cases ht : (getGravityTarget g r c).1 ≠ r ∨ (getGravityTarget g r c).2 ≠ c
        · rw [if_pos ht]
          constructor
          · intro hfalse
            exact absurd hfalse (by simp)
          · intro hc
            have := hc.2.2.2.2.2.2 hgr
            rcases ht with h | h
            · exact absurd (by rw [this]) h
            · exact absurd (by rw [this]) h
        · rw [if_neg ht]
          push_neg at ht
          simp only [decide_eq_true_eq]
          constructor
          · intro hcell
            exact ⟨hgo', by omega, by omega, by omega, by omega, hcell,
              fun _ => Prod.ext ht.1 ht.2⟩
          · intro hc
            exact hc.2.2.2.2.2.1
      · rw [if_neg hgr]
        simp only [decide_eq_true_eq]
        constructor
        · intro hcell
          exact ⟨hgo', by omega, by omega, by omega, by omega, hcell,
            fun h => absurd h hgr⟩
        · intro hc
          exact hc.2.2.2.2.2.1

theorem makeMove_snd_of_valid (g : Game) (rnd : Dir) (r c : Int)
    (h : isValidMove g r c = true) : (makeMove g rnd r c).2 = true := by
  unfold makeMove
  rw [if_neg (by simp [h])]
  dsimp only
  cases hcw : checkWin { g with board := (setCell g.board r.toNat c.toNat (some g.currentPlayerIndex)) } with
  | some res => rfl
  | none =>
    dsimp only
    by_cases hf : isBoardFull { g with board := (setCell g.board r.toNat c.toNat (some g.currentPlayerIndex)) } = true
    · rw [if_pos hf]
    · rw [if_neg hf]

/-- Claim C2: `makeMove(row, col)` returns `false` and leaves every field of
the game state unchanged (the returned state is exactly the input state; no
exception can arise since the embedding is a total function, matching the
guarded JS code) if and only if the game is over, or the coordinates are
out of bounds, or the cell is occupied, or gravity is enabled and
`(row, col)` is not its own gravity-resolved target. -/
theorem makeMove_reject_iff (g : Game) (rnd : Dir) (r c : Int) :
    makeMove g rnd r c = (g, false) ↔
      (g.gameOver = true ∨ r < 0 ∨ (g.height : Int) ≤ r ∨ c < 0 ∨ (g.width : Int) ≤ c ∨
        cellAt g r c ≠ none ∨ (g.gravity = true ∧ getGravityTarget g r c ≠ (r, c))) := by
  by_cases hv : isValidMove g r c = true
  · have hsnd := makeMove_snd_of_valid g rnd r c hv
    rw [isValidMove_true_iff] at hv
    constructor
    · intro h
      rw [h] at hsnd
      exact absurd hsnd (by simp)
    · intro h
      rcases h with h | h | h | h | h | h | h
      · rw [hv.1] at h; exact absurd h (by simp)
      · omega
      · omega
      · omega
      · omega
      · exact absurd hv.2.2.2.2.2.1 h
      · exact absurd (hv.2.2.2.2.2.2 h.1) h.2
  · have hfalse : isValidMove g r c = false := by
      cases h : isValidMove g r c
      · rfl
      · exact absurd h hv
    have hmm : makeMove g rnd r c = (g, false) := by
      unfold makeMove
      rw [if_pos hfalse]
    rw [hmm]
    simp only [true_iff]
    rw [isValidMove_true_iff] at hv
    by_contra hcon
    push_neg at hcon
    apply hv
    refine ⟨?_, by omega, by omega, by omega, by omega, hcon.2.2.2.2.2.1, ?_⟩
    · cases h : g.gameOver
      · rfl
      · exact absurd h hcon.1
    · exact hcon.2.2.2.2.2.2

/-
Claim C3: legality of a cell agrees between `isValidMove`, `getValidMoves`
and the boundary-or-occupied characterisation.
-/

theorem gravGo_offset (g : Game) (dr dc : Int) :
    ∀ (fuel : Nat) (r c : Int), ∃ k : Nat, gravGo g dr dc fuel r c = (r + dr * k, c + dc * k) := by
  intro fuel
  induction fuel with
  | zero => intro r c; exact ⟨0, by simp [gravGo]⟩
  | succ n ih =>
    intro r c
    unfold gravGo
    dsimp only
    by_cases hblk : r + dr < 0 ∨ (g.height : Int) ≤ r + dr ∨ c + dc < 0 ∨
        (g.width : Int) ≤ c + dc ∨ cellAt g (r + dr) (c + dc) ≠ none
    · rw [if_pos hblk]
      exact ⟨0, by simp⟩
    · rw [if_neg hblk]
      obtain ⟨k, hk⟩ := ih (r + dr) (c + dc)
      refine ⟨k + 1, ?_⟩
      rw [hk]
      apply Prod.ext <;> (push_cast; ring)

theorem gravGo_fix_iff (g : Game) (dr dc : Int) (hnz : ¬(dr = 0 ∧ dc = 0)) (n : Nat)
    (r c : Int) :
    gravGo g dr dc (n + 1) r c = (r, c) ↔
      (r + dr < 0 ∨ (g.height : Int) ≤ r + dr ∨ c + dc < 0 ∨ (g.width : Int) ≤ c + dc ∨
        cellAt g (r + dr) (c + dc) ≠ none) := by
  constructor
  · intro heq
    by_contra hblk
    unfold gravGo at heq
    dsimp only at heq
    rw [if_neg hblk] at heq
    obtain ⟨k, hk⟩ := gravGo_offset g dr dc n (r + dr) (c + dc)
    rw [hk] at heq
    have h1 := congrArg Prod.fst heq
    have h2 := congrArg Prod.snd heq
    simp only [Prod.fst, Prod.snd] at h1 h2
    have e1 : dr * ((k : Int) + 1) = 0 := by
      have e : dr * ((k : Int) + 1) = (r + dr + dr * (k : Int)) - r := by ring
      rw [h1] at e
      simpa using e
    have e2 : dc * ((k : Int) + 1) = 0 := by
      have e : dc * ((k : Int) + 1) = (c + dc + dc * (k : Int)) - c := by ring
      rw [h2] at e
      simpa using e
    have hk1 : ((k : Int) + 1) ≠ 0 := by positivity
    rcases mul_eq_zero.mp e1 with hd | hd
    · rcases mul_eq_zero.mp e2 with hd2 | hd2
      · exact hnz ⟨hd, hd2⟩
      · exact hk1 hd2
    · exact hk1 hd
  · intro hblk
    unfold gravGo
    dsimp only
    rw [if_pos hblk]

theorem dirDelta_nz (d : Dir) : ¬((dirDelta d).1 = 0 ∧ (dirDelta d).2 = 0) := by
  cases d <;> simp [dirDelta]

theorem getGravityTarget_self_iff (g : Game) (r c : Int) (hgr : g.gravity = true)
    (hh : 1 ≤ g.height + g.width) :
    getGravityTarget g r c = (r, c) ↔
      (r + (dirDelta g.gravityDirection).1 < 0 ∨
        (g.height : Int) ≤ r + (dirDelta g.gravityDirection).1 ∨
        c + (dirDelta g.gravityDirection).2 < 0 ∨
        (g.width : Int) ≤ c + (dirDelta g.gravityDirection).2 ∨
        cellAt g (r + (dirDelta g.gravityDirection).1)
          (c + (dirDelta g.gravityDirection).2) ≠ none) := by
  unfold getGravityTarget
  rw [if_neg (by simp [hgr])]
  dsimp only
  have hfe : g.height + g.width = (g.height + g.width - 1) + 1 := by omega
  rw [hfe]
  exact gravGo_fix_iff g _ _ (dirDelta_nz g.gravityDirection) _ r c

theorem mem_getValidMoves_iff (g : Game) (r c : Nat) :
    (r, c) ∈ getValidMoves g ↔
      (r < g.height ∧ c < g.width ∧ cellAt g (r : Int) (c : Int) = none ∧
        (g.gravity = true →
          ((r : Int) + (dirDelta g.gravityDirection).1 < 0 ∨
            (g.height : Int) ≤ (r : Int) + (dirDelta g.gravityDirection).1 ∨
            (c : Int) + (dirDelta g.gravityDirection).2 < 0 ∨
            (g.width : Int) ≤ (c : Int) + (dirDelta g.gravityDirection).2 ∨
            cellAt g ((r : Int) + (dirDelta g.gravityDirection).1)
              ((c : Int) + (dirDelta g.gravityDirection).2) ≠ none))) := by
  unfold getValidMoves
  by_cases hg : g.gravity = true
  · rw [if_pos hg]
    rw [List.mem_filter, mem_posList]
    simp only [hg, Bool.and_eq_true, Bool.or_eq_true, Bool.not_eq_true',
      Bool.or_eq_false_iff, decide_eq_true_eq, decide_eq_false_iff_not]
    constructor
    · rintro ⟨⟨h1, h2⟩, h3, h4⟩
      refine ⟨h1, h2, h3, fun _ => ?_⟩
      tauto
    · rintro ⟨h1, h2, h3, h4⟩
      refine ⟨⟨h1, h2⟩, h3, ?_⟩
      have h4' := h4 trivial
      tauto
  · rw [if_neg hg]
    rw [List.mem_filter, mem_posList]
    simp only [decide_eq_true_eq]
    constructor
    · rintro ⟨⟨h1, h2⟩, h3⟩
      exact ⟨h1, h2, h3, fun hh => absurd hh hg⟩
    · rintro ⟨h1, h2, h3, _⟩
      exact ⟨⟨h1, h2⟩, h3⟩

/-- Claim C3: for every non-terminal game state and in-bounds cell
`(row, col)`, the cell is accepted by `isValidMove` iff it satisfies the
spec characterisation (`legalCellSpec`: empty, and under gravity the next
cell along the gravity direction is off the grid or occupied), and it is
enumerated by the AI helper `getValidMoves` iff the same holds — so the
two notions of legality agree on every in-bounds cell. -/
theorem legal_move_charact (g : Game) (r c : Nat)
    (hgo : g.gameOver = false) (hr : r < g.height) (hc : c < g.width) :
    (isValidMove g (r : Int) (c : Int) = true ↔ legalCellSpec g r c) ∧
      ((r, c) ∈ getValidMoves g ↔ legalCellSpec g r c) := by
  have hiff : g.gravity = true →
      (getGravityTarget g (r : Int) (c : Int) = ((r : Int), (c : Int)) ↔
        ((r : Int) + (dirDelta g.gravityDirection).1 < 0 ∨
          (g.height : Int) ≤ (r : Int) + (dirDelta g.gravityDirection).1 ∨
          (c : Int) + (dirDelta g.gravityDirection).2 < 0 ∨
          (g.width : Int) ≤ (c : Int) + (dirDelta g.gravityDirection).2 ∨
          cellAt g ((r : Int) + (dirDelta g.gravityDirection).1)
            ((c : Int) + (dirDelta g.gravityDirection).2) ≠ none)) :=
    fun hg => getGravityTarget_self_iff g _ _ hg (by omega)
  constructor
  · rw [isValidMove_true_iff]
    unfold legalCellSpec
    constructor
    · rintro ⟨_, _, _, _, _, hcell, htar⟩
      exact ⟨hcell, fun hg => (hiff hg).mp (htar hg)⟩
    · rintro ⟨hcell, hblk⟩
      exact ⟨hgo, by omega, by omega, by omega, by omega, hcell,
        fun hg => (hiff hg).mpr (hblk hg)⟩
  · rw [mem_getValidMoves_iff]
    unfold legalCellSpec
    constructor
    · rintro ⟨_, _, h3, h4⟩
      exact ⟨h3, h4⟩
    · rintro ⟨h3, h4⟩
      exact ⟨hr, hc, h3, h4⟩

/-- Witness for C3 at a concrete in-bounds cell of a concrete gravity game. -/
theorem legal_move_charact_witness :
    gValid3.gameOver = false ∧
      (isValidMove gValid3 2 1 = true ↔ legalCellSpec gValid3 2 1) ∧
      ((2, 1) ∈ getValidMoves gValid3 ↔ legalCellSpec gValid3 2 1) :=
  ⟨by decide,
    (legal_move_charact gValid3 2 1 (by decide) (by decide) (by decide)).1,
    (legal_move_charact gValid3 2 1 (by decide) (by decide) (by decide)).2⟩

/-
Field preservation: gravity application only rewrites the board.
-/

theorem gravPassStep_fields (g : Game) (p : Nat × Nat) :
    (gravPassStep g p).1 = { g with board := (gravPassStep g p).1.board } := by
  unfold gravPassStep
  cases cellAt g p.1 p.2 with
  | none => rfl
  | some v =>
    dsimp only
    by_cases ht : (getGravityTarget g p.1 p.2).1 ≠ (p.1 : Int) ∨
        (getGravityTarget g p.1 p.2).2 ≠ (p.2 : Int)
    · rw [if_pos ht]
    · rw [if_neg ht]

theorem gravPassStep_false_id (g : Game) (p : Nat × Nat)
    (h : (gravPassStep g p).2 = false) : (gravPassStep g p).1 = g := by
  unfold gravPassStep at h ⊢
  cases hcell : cellAt g p.1 p.2 with
  | none => rfl
  | some v =>
    rw [hcell] at h
    dsimp only at h ⊢
    by_cases ht : (getGravityTarget g p.1 p.2).1 ≠ (p.1 : Int) ∨
        (getGravityTarget g p.1 p.2).2 ≠ (p.2 : Int)
    · rw [if_pos ht] at h
      exact absurd h (by simp)
    · rw [if_neg ht]

theorem gravPassFold_fields : ∀ (ps : List (Nat × Nat)) (acc : Game × Bool),
    (gravPassFold acc ps).1 = { acc.1 with board := (gravPassFold acc ps).1.board } := by
  intro ps
  induction ps with
  | nil => intro acc; rfl
  | cons p ps ih =>
    intro acc
    unfold gravPassFold
    dsimp only
    rw [ih ((gravPassStep acc.1 p).1, acc.2 || (gravPassStep acc.1 p).2)]
    rw [gravPassStep_fields acc.1 p]

theorem gravPassFold_mono : ∀ (ps : List (Nat × Nat)) (g : Game),
    (gravPassFold (g, true) ps).2 = true := by
  intro ps
  induction ps with
  | nil => intro g; rfl
  | cons p ps ih =>
    intro g
    unfold gravPassFold
    dsimp only
    exact ih _

theorem gravPassFold_false_id : ∀ (ps : List (Nat × Nat)) (g : Game),
    (gravPassFold (g, false) ps).2 = false → (gravPassFold (g, false) ps).1 = g := by
  intro ps
  induction ps with
  | nil => intro g _; rfl
  | cons p ps ih =>
    intro g h
    unfold gravPassFold at h ⊢
    dsimp only at h ⊢
    cases hs : (gravPassStep g p).2 with
    | true =>
      simp only [Bool.false_or] at h
      rw [hs] at h
      rw [gravPassFold_mono] at h
      exact absurd h (by simp)
    | false =>
      simp only [Bool.false_or] at h ⊢
      rw [hs] at h
      rw [gravPassStep_false_id g p hs] at h ⊢
      exact ih g h

theorem gravPass_false_id (g : Game) (h : (gravPass g).2 = false) : (gravPass g).1 = g :=
  gravPassFold_false_id _ g h

theorem gravPass_fields (g : Game) :
    (gravPass g).1 = { g with board := (gravPass g).1.board } :=
  gravPassFold_fields _ (g, false)

theorem applyGravityLoop_fields : ∀ (n : Nat) (g g' : Game),
    applyGravityLoop n g = some g' → g' = { g with board := g'.board } := by
  intro n
  induction n with
  | zero => intro g g' h; exact absurd h (by simp [applyGravityLoop])
  | succ m ih =>
    intro g g' h
    unfold applyGravityLoop at h
    dsimp only at h
    cases hc : (gravPass g).2 with
    | false =>
      rw [hc] at h
      simp only [if_neg (by simp : ¬(false = true))] at h
      have h1 := gravPass_fields g
      have hg : (gravPass g).1 = g' := Option.some_inj.mp h
      rw [← hg]
      exact h1
    | true =>
      rw [hc] at h
      simp only [if_pos rfl] at h
      have h1 := ih (gravPass g).1 g' h
      rw [gravPass_fields g] at h1
      exact h1

theorem applyGravityLoop_exit : ∀ (n : Nat) (g g' : Game),
    applyGravityLoop n g = some g' → gravPass g' = (g', false) := by
  intro n
  induction n with
  | zero => intro g g' h; exact absurd h (by simp [applyGravityLoop])
  | succ m ih =>
    intro g g' h
    unfold applyGravityLoop at h
    dsimp only at h
    cases hc : (gravPass g).2 with
    | false =>
      rw [hc] at h
      simp only [if_neg (by simp : ¬(false = true))] at h
      have hid := gravPass_false_id g hc
      have hg' : g' = g := by
        rw [← Option.some_inj.mp h]
        exact hid
      rw [hg']
      exact Prod.ext hid hc
    | true =>
      rw [hc] at h
      simp only [if_pos rfl] at h
      exact ih _ g' h

theorem applyGravityTotal_fields (g : Game) :
    applyGravityTotal g = { g with board := (applyGravityTotal g).board } := by
  unfold applyGravityTotal
  by_cases hg : g.gravity = false
  · rw [if_pos hg]
  · rw [if_neg hg]
    cases h : applyGravityLoop (potential g + 1) g with
    | none => rfl
    | some g' =>
      show g' = { g with board := g'.board }
      exact applyGravityLoop_fields _ g g' h

/-
Claim C1: what `turnCount` counts.
-/

theorem rotate_turnCount (g : Game) (rnd : Dir) :
    (rotateGravityIfNeeded g rnd).turnCount =
        g.turnCount + (if rotActive g = true then 1 else 0) ∧
      (rotateGravityIfNeeded g rnd).gravityRot = g.gravityRot ∧
      (rotateGravityIfNeeded g rnd).gameOver = g.gameOver := by
  unfold rotateGravityIfNeeded rotActive
  cases hrot : g.gravityRot with
  | none => simp [hrot]
  | some rot =>
    dsimp only
    by_cases hm : rot.mode = RotMode.none
    · rw [if_pos hm]
      simp [hm, hrot]
    · rw [if_neg hm]
      have hact : (if decide (rot.mode ≠ RotMode.none) = true then 1 else 0) = 1 := by
        simp [hm]
      rw [hact]
      by_cases hdiv : (g.turnCount + 1) % rot.turns = 0
      · rw [if_pos hdiv]
        rw [applyGravityTotal_fields]
        exact ⟨rfl, rfl, rfl⟩
      · rw [if_neg hdiv]
        exact ⟨rfl, rfl, rfl⟩

theorem makeMove_turnCount_step (g : Game) (rnd : Dir) (r c : Int) :
    (makeMove g rnd r c).1.turnCount =
        g.turnCount +
          (if (makeMove g rnd r c).2 = true ∧ (makeMove g rnd r c).1.gameOver = false ∧
              rotActive g = true then 1 else 0) ∧
      (makeMove g rnd r c).1.gravityRot = g.gravityRot := by
  by_cases hv : isValidMove g r c = true
  · unfold makeMove
    rw [if_neg (by simp [hv])]
    dsimp only
    cases hcw : checkWin { g with board := (setCell g.board r.toNat c.toNat (some g.currentPlayerIndex)) } with
    | some res =>
      dsimp only
      rw [if_neg (by simp)]
      exact ⟨rfl, rfl⟩
    | none =>
      dsimp only
      by_cases hf : isBoardFull { g with board := (setCell g.board r.toNat c.toNat (some g.currentPlayerIndex)) } = true
      · rw [if_pos hf]
        dsimp only
        rw [if_neg (by simp)]
        exact ⟨rfl, rfl⟩
      · rw [if_neg hf]
        dsimp only
        obtain ⟨h1, h2, h3⟩ := rotate_turnCount { g with
          board := setCell g.board r.toNat c.toNat (some g.currentPlayerIndex),
          currentPlayerIndex := (g.currentPlayerIndex + 1) % g.players.length } rnd
        refine ⟨?_, h2⟩
        rw [h1, h3]
        have hgo : g.gameOver = false := ((isValidMove_true_iff g r c).mp hv).1
        simp [rotActive, hgo]
  · have hfalse : isValidMove g r c = false := by
      cases h : isValidMove g r c
      · rfl
      · exact absurd h hv
    have hmm : makeMove g rnd r c = (g, false) := by
      unfold makeMove
      rw [if_pos hfalse]
    rw [hmm]
    simp

theorem playMoves_turnCount_inv (ms : List (Dir × Int × Int)) : ∀ (g : Game),
    (playMoves g ms).turnCount =
      g.turnCount + (if rotActive g = true then countCompleted g ms else 0) := by
  induction ms with
  | nil => intro g; simp [playMoves, countCompleted]
  | cons m ms ih =>
    intro g
    unfold playMoves countCompleted
    dsimp only
    obtain ⟨h1, h2⟩ := makeMove_turnCount_step g m.1 m.2.1 m.2.2
    have hro : rotActive (makeMove g m.1 m.2.1 m.2.2).1 = rotActive g := by
      unfold rotActive
      rw [h2]
    rw [ih (makeMove g m.1 m.2.1 m.2.2).1, hro, h1]
    cases hact : rotActive g with
    | false => simp
    | true =>
      cases hs : (makeMove g m.1 m.2.1 m.2.2).2 with
      | false =>
        cases hgo : (makeMove g m.1 m.2.1 m.2.2).1.gameOver <;> simp [hs, hgo] <;> omega
      | true =>
        cases hgo : (makeMove g m.1 m.2.1 m.2.2).1.gameOver <;> simp [hs, hgo] <;> omega

/-- Claim C1 is *corrected* by this theorem: after a reset, `turnCount`
counts only the successful `makeMove` calls that did not end the game, and
only when a gravity rotation with mode other than 'none' is configured;
with rotation absent or mode 'none' it stays 0 (the JS code increments
`turnCount` exclusively inside `rotateGravityIfNeeded`, which returns early
both on win/draw moves and when rotation is inactive). -/
theorem turnCount_counts_completed_moves (g : Game) (ms : List (Dir × Int × Int)) :
    (playMoves (resetGame g) ms).turnCount =
      if rotActive g = true then countCompleted (resetGame g) ms else 0 := by
  have h := playMoves_turnCount_inv ms (resetGame g)
  have hr : rotActive (resetGame g) = rotActive g := rfl
  rw [h, hr]
  have h0 : (resetGame g).turnCount = 0 := rfl
  rw [h0]
  omega

/-- Counterexample to claim C1 as stated: in a game with no gravity
rotation configured, one successful `makeMove` after `reset` leaves
`turnCount` at 0, which differs from the number of successful calls (1). -/
theorem turnCount_claim_counterexample :
    countSucc (resetGame cexNoRot) [(Dir.down, 0, 0)] = 1 ∧
      (playMoves (resetGame cexNoRot) [(Dir.down, 0, 0)]).turnCount ≠
        countSucc (resetGame cexNoRot) [(Dir.down, 0, 0)] := by
  constructor
  · decide
  · decide

/-
Claim C7: clockwise gravity rotation every completed move.
-/

theorem rotate_dir_cw (g2 : Game) (rnd : Dir)
    (hrot : g2.gravityRot = some { turns := 1, mode := RotMode.clockwise }) :
    (rotateGravityIfNeeded g2 rnd).gravityDirection = rotCW g2.gravityDirection := by
  unfold rotateGravityIfNeeded
  rw [hrot]
  dsimp only
  rw [if_neg (by decide : ¬(RotMode.clockwise = RotMode.none))]
  rw [if_pos (Nat.mod_one _)]
  rw [if_neg (by decide : ¬(RotMode.clockwise = RotMode.random))]
  rw [if_pos (rfl : RotMode.clockwise = RotMode.clockwise)]
  rw [applyGravityTotal_fields]

theorem makeMove_normal (g : Game) (rnd : Dir) (r c : Int)
    (hok : (makeMove g rnd r c).2 = true) (hnt : (makeMove g rnd r c).1.gameOver = false) :
    ∃ g2 : Game, g2.gravityRot = g.gravityRot ∧ g2.gravityDirection = g.gravityDirection ∧
      makeMove g rnd r c = (rotateGravityIfNeeded g2 rnd, true) := by
  by_cases hv : isValidMove g r c = true
  · unfold makeMove at hok hnt ⊢
    rw [if_neg (by simp [hv])] at hok hnt ⊢
    dsimp only at hok hnt ⊢
    cases hcw : checkWin { g with board := (setCell g.board r.toNat c.toNat (some g.currentPlayerIndex)) } with
    | some res =>
      rw [hcw] at hnt
      exact absurd hnt (by simp)
    | none =>
      rw [hcw] at hnt
      dsimp only at hnt ⊢
      by_cases hf : isBoardFull { g with board := (setCell g.board r.toNat c.toNat (some g.currentPlayerIndex)) } = true
      · rw [if_pos hf] at hnt
        exact absurd hnt (by simp)
      · rw [if_neg hf] at hnt ⊢
        exact ⟨{ g with
          board := setCell g.board r.toNat c.toNat (some g.currentPlayerIndex),
          currentPlayerIndex := (g.currentPlayerIndex + 1) % g.players.length },
          rfl, rfl, rfl⟩
  · have hfalse : isValidMove g r c = false := by
      cases h : isValidMove g r c
      · rfl
      · exact absurd h hv
    unfold makeMove at hok
    rw [if_pos hfalse] at hok
    exact absurd hok (by simp)

/-- Claim C7: in a game configured with gravity rotation
`{mode: 'clockwise', turns: 1}`, every successful `makeMove` that does not
end the game advances the gravity direction one step clockwise
(`rotCW`), and `rotCW` cycles down → right → up → left → down, so four such
completed moves return the direction to its starting value. -/
theorem gravity_rotation_clockwise_step (g : Game) (rnd : Dir) (r c : Int)
    (hrot : g.gravityRot = some { turns := 1, mode := RotMode.clockwise })
    (hok : (makeMove g rnd r c).2 = true)
    (hnt : (makeMove g rnd r c).1.gameOver = false) :
    (makeMove g rnd r c).1.gravityDirection = rotCW g.gravityDirection ∧
      rotCW Dir.down = Dir.right ∧ rotCW Dir.right = Dir.up ∧
      rotCW Dir.up = Dir.left ∧ rotCW Dir.left = Dir.down ∧
      (∀ d : Dir, rotCW (rotCW (rotCW (rotCW d))) = d) := by
  refine ⟨?_, by decide, by decide, by decide, by decide, fun d => by cases d <;> decide⟩
  obtain ⟨g2, hg2rot, hg2dir, hmk⟩ := makeMove_normal g rnd r c hok hnt
  rw [hmk]
  show (rotateGravityIfNeeded g2 rnd).gravityDirection = rotCW g.gravityDirection
  rw [rotate_dir_cw g2 rnd (by rw [hg2rot, hrot]), hg2dir]

/-- Witness for C7: a concrete first move in a clockwise-rotating game
turns the gravity direction from down to right. -/
theorem gravity_rotation_clockwise_step_witness :
    gRotCW.gravityRot = some { turns := 1, mode := RotMode.clockwise } ∧
      (makeMove gRotCW Dir.down 0 0).2 = true ∧
      (makeMove gRotCW Dir.down 0 0).1.gameOver = false ∧
      (makeMove gRotCW Dir.down 0 0).1.gravityDirection = rotCW gRotCW.gravityDirection :=
  ⟨by decide, by decide, by decide,
    (gravity_rotation_clockwise_step gRotCW Dir.down 0 0 (by decide) (by decide) (by decide)).1⟩

/-
Claim C5: the win detector fires exactly at runs of length `winLength`.
-/

theorem range_map_get? {α : Type} (n i : Nat) (f : Nat → α) (h : i < n) :
    ((List.range n).map f).get? i = some (f i) := by
  rw [List.get?_map, List.get?_range h]
  rfl

theorem runPos_cast (r c : Nat) (d : Int × Int) (j : Nat) :
    ((r : Int) + d.1 * ((j + 1 : Nat) : Int), (c : Int) + d.2 * ((j + 1 : Nat) : Int)) =
      ((r : Int) + d.1 * ((j : Int) + 1), (c : Int) + d.2 * ((j : Int) + 1)) := by
  apply Prod.ext <;> (push_cast; ring)

theorem runPos_zero (r c : Nat) (d : Int × Int) :
    ((r : Int) + d.1 * ((0 : Nat) : Int), (c : Int) + d.2 * ((0 : Nat) : Int)) =
      ((r : Int), (c : Int)) := by
  apply Prod.ext <;> (push_cast; ring)

theorem countsToward_self (g : Game) (p : Nat) : countsToward g p p = true := by
  simp [countsToward]

theorem findSome?_ne_none_of_mem {α β : Type} (l : List α) (f : α → Option β) (x : α)
    (hx : x ∈ l) (hf : f x ≠ none) : l.findSome? f ≠ none := by
  intro h
  exact hf (List.findSome?_eq_none_iff.mp h x hx)

theorem runCells_long_iff (g : Game) (p : Nat) (r c : Nat) (d : Int × Int)
    (hp : cellAt g (r : Int) (c : Int) = some p) :
    g.winLength ≤ (runCells g p r c d.1 d.2).length ↔ runMatchesM g p r c d := by
  unfold runCells runMatchesM
  rw [List.length_cons]
  constructor
  · intro hlen i hi
    cases i with
    | zero =>
      rw [runPos_zero]
      unfold cellMatches
      show (match cellAt g (r : Int) (c : Int) with
        | some q => countsToward g p q
        | none => false) = true
      rw [hp]
      exact countsToward_self g p
    | succ j =>
      have hj : j < g.winLength - 1 := by omega
      have hj2 : j < (((List.range (g.winLength - 1)).map
          (fun i : Nat => ((r : Int) + d.1 * ((i : Int) + 1),
            (c : Int) + d.2 * ((i : Int) + 1)))).takeWhile
          (fun pos => cellMatches g p pos)).length := by
        omega
      obtain ⟨x, hx, hpx⟩ := takeWhile_get?_true (fun pos => cellMatches g p pos)
        ((List.range (g.winLength - 1)).map
          (fun i : Nat => ((r : Int) + d.1 * ((i : Int) + 1),
            (c : Int) + d.2 * ((i : Int) + 1)))) j hj2
      rw [range_map_get? (g.winLength - 1) j
        (fun i : Nat =>
          ((r : Int) + d.1 * ((i : Int) + 1), (c : Int) + d.2 * ((i : Int) + 1))) hj] at hx
      have hxx : x = ((r : Int) + d.1 * ((j : Int) + 1), (c : Int) + d.2 * ((j : Int) + 1)) := by
        injection hx with hinj
        exact hinj.symm
      rw [hxx] at hpx
      rw [runPos_cast]
      exact hpx
  · intro hrun
    have hge : g.winLength - 1 ≤ (((List.range (g.winLength - 1)).map
        (fun i : Nat => ((r : Int) + d.1 * ((i : Int) + 1),
          (c : Int) + d.2 * ((i : Int) + 1)))).takeWhile
        (fun pos => cellMatches g p pos)).length := by
      apply takeWhile_length_ge
      · rw [List.length_map, List.length_range]
      · intro i hi
        refine ⟨_, range_map_get? _ _ _ hi, ?_⟩
        have h := hrun (i + 1) (by omega)
        rw [runPos_cast] at h
        exact h
    omega

theorem winRunAt_iff (g : Game) (r c : Nat) (d : Int × Int) :
    winRunAt g r c d ↔ ∃ p, cellAt g (r : Int) (c : Int) = some p ∧ runMatchesM g p r c d := by
  unfold winRunAt
  cases h : cellAt g (r : Int) (c : Int) with
  | none =>
    constructor
    · intro hf
      exact absurd hf (by simp)
    · rintro ⟨p, hp, _⟩
      exact absurd hp (by simp)
  | some p =>
    constructor
    · intro hrun
      exact ⟨p, rfl, hrun⟩
    · rintro ⟨p', hp', hrun⟩
      have : p' = p := by injection hp' with h2; exact h2.symm
      rw [← this]
      exact hrun

theorem checkWin_ne_none_of_run (g : Game) (r c : Nat) (d : Int × Int) (p : Nat)
    (hd : d ∈ dirs4) (hp : cellAt g (r : Int) (c : Int) = some p)
    (hrun : runMatchesM g p r c d) : checkWin g ≠ none := by
  have hb := cellAt_some_entry g r c p hp
  unfold checkWin
  apply findSome?_ne_none_of_mem _ _ (r, c) ((mem_posList g (r, c)).mpr ⟨hb.1, hb.2.1⟩)
  show (match cellAt g (r : Int) (c : Int) with
    | none => none
    | some p =>
      dirs4.findSome? (fun d =>
        if g.winLength ≤ (runCells g p r c d.1 d.2).length then
          some (mkWinResult g p (runCells g p r c d.1 d.2))
        else none)) ≠ none
  rw [hp]
  apply findSome?_ne_none_of_mem _ _ d hd
  rw [if_pos ((runCells_long_iff g p r c d hp).mpr hrun)]
  simp

theorem checkWin_none_of_no_run (g : Game)
    (hno : ∀ r' < g.height, ∀ c' < g.width, ∀ d ∈ dirs4, ¬ winRunAt g r' c' d) :
    checkWin g = none := by
  unfold checkWin
  rw [List.findSome?_eq_none_iff]
  intro rc hrc
  obtain ⟨hr, hc⟩ := (mem_posList g rc).mp hrc
  show (match cellAt g (rc.1 : Int) (rc.2 : Int) with
    | none => none
    | some p =>
      dirs4.findSome? (fun d =>
        if g.winLength ≤ (runCells g p rc.1 rc.2 d.1 d.2).length then
          some (mkWinResult g p (runCells g p rc.1 rc.2 d.1 d.2))
        else none)) = none
  cases hcell : cellAt g (rc.1 : Int) (rc.2 : Int) with
  | none => rfl
  | some p =>
    rw [List.findSome?_eq_none_iff]
    intro d hd
    rw [if_neg]
    intro hlen
    exact hno rc.1 hr rc.2 hc d hd
      ((winRunAt_iff g rc.1 rc.2 d).mpr ⟨p, hcell, (runCells_long_iff g p rc.1 rc.2 d hcell).mp hlen⟩)

theorem checkWin_some_spec (g : Game) (res : WinResult) (h : checkWin g = some res) :
    ∃ r c p d, r < g.height ∧ c < g.width ∧ d ∈ dirs4 ∧
      cellAt g (r : Int) (c : Int) = some p ∧ runMatchesM g p r c d ∧
      res = mkWinResult g p (runCells g p r c d.1 d.2) := by
  unfold checkWin at h
  obtain ⟨rc, hrc, hf⟩ := List.exists_of_findSome?_eq_some h
  obtain ⟨hr, hc⟩ := (mem_posList g rc).mp hrc
  cases hcell : cellAt g (rc.1 : Int) (rc.2 : Int) with
  | none =>
    rw [hcell] at hf
    simp at hf
  | some p =>
    rw [hcell] at hf
    dsimp only at hf
    obtain ⟨d, hd, hfd⟩ := List.exists_of_findSome?_eq_some hf
    by_cases hlen : g.winLength ≤ (runCells g p rc.1 rc.2 d.1 d.2).length
    · rw [if_pos hlen] at hfd
      refine ⟨rc.1, rc.2, p, d, hr, hc, hd, hcell,
        (runCells_long_iff g p rc.1 rc.2 d hcell).mp hlen, ?_⟩
      injection hfd with h2
      exact h2.symm
    · rw [if_neg hlen] at hfd
      exact absurd hfd (by simp)

/-- Claim C5: when the board contains `winLength` consecutive cells held by
the same player along one of the four scan directions, `checkWin` returns a
non-null result; and when no cell starts a qualifying run of `winLength`
cells (in particular when the longest qualifying run has length
`winLength - 1`), `checkWin` returns null. -/
theorem checkWin_length_threshold (g : Game) (hw : 1 ≤ g.winLength) :
    ((∃ r c p : Nat, ∃ d ∈ dirs4, samePlayerRunAt g r c d p) → checkWin g ≠ none) ∧
      ((∀ r' < g.height, ∀ c' < g.width, ∀ d ∈ dirs4, ¬ winRunAt g r' c' d) →
        checkWin g = none) := by
  constructor
  · rintro ⟨r, c, p, d, hd, hrun⟩
    have hp : cellAt g (r : Int) (c : Int) = some p := by
      have h0 := hrun 0 (by omega)
      simpa using h0
    refine checkWin_ne_none_of_run g r c d p hd hp ?_
    intro i hi
    have hcell := hrun i hi
    unfold cellMatches
    show (match cellAt g ((r : Int) + d.1 * (i : Int)) ((c : Int) + d.2 * (i : Int)) with
      | some q => countsToward g p q
      | none => false) = true
    rw [hcell]
    exact countsToward_self g p
  · exact checkWin_none_of_no_run g

/-- Witness for C5: a four-run board is detected, a three-run board with
`winLength = 4` is not. -/
theorem checkWin_length_threshold_witness :
    checkWin gRun4 ≠ none ∧ checkWin gRun3 = none :=
  ⟨(checkWin_length_threshold gRun4 (by decide)).1 ⟨0, 0, 0, (0, 1), by decide, by decide⟩,
    (checkWin_length_threshold gRun3 (by decide)).2 (by decide)⟩

/-
Claim C6: team collaboration decides mixed-team runs.
-/

theorem countsToward_team (g : Game) (a b t : Nat) (hc : g.teamCollaboration = true)
    (ha : teamOf g a = some t) (hb : teamOf g b = some t) : countsToward g a b = true := by
  simp [countsToward, hc, ha, hb]

theorem countsToward_nocollab (g : Game) (a b : Nat) (hc : g.teamCollaboration = false)
    (h : countsToward g a b = true) : b = a := by
  simp [countsToward, hc] at h
  exact h

theorem cellMatches_elim (g : Game) (p : Nat) (pos : Int × Int)
    (h : cellMatches g p pos = true) :
    ∃ x, cellAt g pos.1 pos.2 = some x ∧ countsToward g p x = true := by
  unfold cellMatches at h
  cases hcell : cellAt g pos.1 pos.2 with
  | none => rw [hcell] at h; exact absurd h (by simp)
  | some x =>
    rw [hcell] at h
    exact ⟨x, rfl, h⟩

theorem cellMatches_intro (g : Game) (p x : Nat) (pos : Int × Int)
    (hcell : cellAt g pos.1 pos.2 = some x) (hct : countsToward g p x = true) :
    cellMatches g p pos = true := by
  unfold cellMatches
  rw [hcell]
  exact hct

/-- Claim C6: when `winLength` contiguous cells along a scan direction are
occupied by two distinct players `p ≠ q` on the same team `t` (each holding
at least one of the cells) and no other winning run is present (formalised:
the only qualifying run under `checkWin`'s counting rule is this one), then
with team collaboration enabled `checkWin` reports a win named after the
team, and with team collaboration disabled `checkWin` on the identical
board reports no win. -/
theorem team_collaboration_win (g : Game) (r c : Nat) (d : Int × Int) (p q t : Nat)
    (hd : d ∈ dirs4) (hpq : p ≠ q)
    (hpt : teamOf g p = some t) (hqt : teamOf g q = some t)
    (hcells : ∀ i < g.winLength,
      cellAt g ((r : Int) + d.1 * (i : Int)) ((c : Int) + d.2 * (i : Int)) = some p ∨
        cellAt g ((r : Int) + d.1 * (i : Int)) ((c : Int) + d.2 * (i : Int)) = some q)
    (hp : ∃ i, i < g.winLength ∧
      cellAt g ((r : Int) + d.1 * (i : Int)) ((c : Int) + d.2 * (i : Int)) = some p)
    (hq : ∃ i, i < g.winLength ∧
      cellAt g ((r : Int) + d.1 * (i : Int)) ((c : Int) + d.2 * (i : Int)) = some q)
    (honly : ∀ r' < g.height, ∀ c' < g.width, ∀ d' ∈ dirs4,
      winRunAt g r' c' d' → (r', c', d') = (r, c, d))
    (hcollab : g.teamCollaboration = true) :
    (∃ res, checkWin g = some res ∧ res.winner = "Team " ++ toString (t + 1)) ∧
      checkWin { g with teamCollaboration := false } = none := by
  obtain ⟨ip, hip, hcp⟩ := hp
  obtain ⟨iq, hiq, hcq⟩ := hq
  have hw : 0 < g.winLength := by omega
  have h0 := hcells 0 hw
  have h0' : cellAt g (r : Int) (c : Int) = some p ∨ cellAt g (r : Int) (c : Int) = some q := by
    simpa using h0
  have hteamOf0 : ∀ p0 : Nat, cellAt g (r : Int) (c : Int) = some p0 → teamOf g p0 = some t := by
    intro p0 hp0
    rcases h0' with h | h
    · rw [hp0] at h
      injection h with h2
      rw [h2]
      exact hpt
    · rw [hp0] at h
      injection h with h2
      rw [h2]
      exact hqt
  have hrunFor : ∀ p0 : Nat, teamOf g p0 = some t → runMatchesM g p0 r c d := by
    intro p0 hp0t i hi
    rcases hcells i hi with h | h
    · exact cellMatches_intro g p0 p _ h (countsToward_team g p0 p t hcollab hp0t hpt)
    · exact cellMatches_intro g p0 q _ h (countsToward_team g p0 q t hcollab hp0t hqt)
  constructor
  · rcases h0' with hstart | hstart
    all_goals {
      have hne := checkWin_ne_none_of_run g r c d _ hd hstart
        (hrunFor _ (hteamOf0 _ hstart))
      cases hcw : checkWin g with
      | none => exact absurd hcw hne
      | some res =>
        obtain ⟨r2, c2, p2, d2, hr2, hc2, hd2, hcell2, hrun2, hres⟩ :=
          checkWin_some_spec g res hcw
        have heq := honly r2 hr2 c2 hc2 d2 hd2 ((winRunAt_iff g r2 c2 d2).mpr ⟨p2, hcell2, hrun2⟩)
        have hr2e : r2 = r := congrArg Prod.fst heq
        have hrest := congrArg Prod.snd heq
        have hc2e : c2 = c := congrArg Prod.fst hrest
        rw [hr2e, hc2e] at hcell2
        have ht2 : teamOf g p2 = some t := hteamOf0 p2 hcell2
        refine ⟨res, rfl, ?_⟩
        rw [hres]
        unfold mkWinResult
        rw [ht2]
    }
  · apply checkWin_none_of_no_run
    intro r' hr' c' hc' d' hd' hwr
    obtain ⟨p', hcell', hrun'⟩ := (winRunAt_iff _ r' c' d').mp hwr
    have hallsame : ∀ i < g.winLength,
        cellAt g ((r' : Int) + d'.1 * (i : Int)) ((c' : Int) + d'.2 * (i : Int)) = some p' := by
      intro i hi
      obtain ⟨x, hx, hct⟩ := cellMatches_elim _ p' _ (hrun' i hi)
      have hx' : x = p' := countsToward_nocollab _ p' x rfl hct
      rw [← hx']
      exact hx
    have hrunG : runMatchesM g p' r' c' d' := by
      intro i hi
      exact cellMatches_intro g p' p' _ (hallsame i hi) (countsToward_self g p')
    have hcellG : cellAt g (r' : Int) (c' : Int) = some p' := hcell'
    have heq := honly r' hr' c' hc' d' hd' ((winRunAt_iff g r' c' d').mpr ⟨p', hcellG, hrunG⟩)
    have hr'e : r' = r := congrArg Prod.fst heq
    have hrest := congrArg Prod.snd heq
    have hc'e : c' = c := congrArg Prod.fst hrest
    have hd'e : d' = d := congrArg Prod.snd hrest
    subst hr'e
    subst hc'e
    subst hd'e
    have h1 := hallsame ip hip
    rw [hcp] at h1
    injection h1 with e1
    have h2 := hallsame iq hiq
    rw [hcq] at h2
    injection h2 with e2
    exact hpq (e1.trans e2.symm)

/-- Witness for C6 at a concrete mixed-team four-run board. -/
theorem team_collaboration_win_witness :
    (∃ res, checkWin gTeamW = some res ∧ res.winner = "Team " ++ toString (0 + 1)) ∧
      checkWin { gTeamW with teamCollaboration := false } = none :=
  team_collaboration_win gTeamW 0 0 (0, 1) 0 1 0 (by decide) (by decide) (by decide) (by decide)
    (by decide) (by decide) (by decide) (by decide) (by decide)

/-
Claim C8: the Offensive AI takes the unique winning completion.
-/

theorem chainOffsets_length (g : Game) : (chainOffsets g).length = g.winLength - 1 := by
  unfold chainOffsets
  rw [List.length_map, List.length_range]

theorem chainOffsets_get? (g : Game) (i : Nat) (h : i < g.winLength - 1) :
    (chainOffsets g).get? i = some (i + 1) := by
  unfold chainOffsets
  exact range_map_get? _ _ _ h

theorem chainCount_le (g : Game) (pi : Nat) (r c dr dc sgn : Int) :
    chainCount g pi r c dr dc sgn ≤ g.winLength - 1 := by
  unfold chainCount
  have h := takeWhile_length_le (fun i : Nat =>
    cellMatchesAI g pi (r + dr * (i : Int) * sgn, c + dc * (i : Int) * sgn)) (chainOffsets g)
  rw [chainOffsets_length] at h
  exact h

theorem chainCount_ge (g : Game) (pi : Nat) (r c dr dc sgn : Int) (k : Nat)
    (hk : k ≤ g.winLength - 1)
    (hall : ∀ j : Nat, 1 ≤ j → j ≤ k →
      cellMatchesAI g pi (r + dr * (j : Int) * sgn, c + dc * (j : Int) * sgn) = true) :
    k ≤ chainCount g pi r c dr dc sgn := by
  unfold chainCount
  apply takeWhile_length_ge
  · rw [chainOffsets_length]
    exact hk
  · intro i hi
    refine ⟨i + 1, chainOffsets_get? g i (by omega), ?_⟩
    exact hall (i + 1) (by omega) (by omega)

theorem chainCount_all (g : Game) (pi : Nat) (r c dr dc sgn : Int) (j : Nat)
    (hj : j < chainCount g pi r c dr dc sgn) :
    cellMatchesAI g pi (r + dr * ((j : Int) + 1) * sgn, c + dc * ((j : Int) + 1) * sgn) = true := by
  unfold chainCount at hj
  obtain ⟨x, hx, hpx⟩ := takeWhile_get?_true _ _ j hj
  have hjlen : j < g.winLength - 1 := by
    have h := takeWhile_length_le (fun i : Nat =>
      cellMatchesAI g pi (r + dr * (i : Int) * sgn, c + dc * (i : Int) * sgn)) (chainOffsets g)
    rw [chainOffsets_length] at h
    omega
  rw [chainOffsets_get? g j hjlen] at hx
  have hxx : x = j + 1 := by
    injection hx with h2
    exact h2.symm
  rw [hxx] at hpx
  have hcast : ((j + 1 : Nat) : Int) = (j : Int) + 1 := by push_cast; ring
  rw [hcast] at hpx
  exact hpx

theorem spaceCount_le (g : Game) (pi : Nat) (r c dr dc sgn : Int) :
    spaceCount g pi r c dr dc sgn ≤ g.winLength - 1 := by
  unfold spaceCount
  have h := takeWhile_length_le (fun i : Nat =>
    decide (0 ≤ r + dr * (i : Int) * sgn) &&
      decide (r + dr * (i : Int) * sgn < (g.height : Int)) &&
      decide (0 ≤ c + dc * (i : Int) * sgn) &&
      decide (c + dc * (i : Int) * sgn < (g.width : Int)) &&
      (match cellAt g (r + dr * (i : Int) * sgn) (c + dc * (i : Int) * sgn) with
       | none => true
       | some q => aiMatches g pi q)) (chainOffsets g)
  rw [chainOffsets_length] at h
  exact h

theorem evalDirs_wins (g : Game) (pi : Nat) (r c : Int) :
    ∀ (ds : List (Int × Int)) (acc : Nat),
      (∃ d ∈ ds, g.winLength ≤
        chainCount g pi r c d.1 d.2 (-1) + chainCount g pi r c d.1 d.2 1 + 1) →
      evalDirs g pi r c ds acc = 1000 := by
  intro ds
  induction ds with
  | nil =>
    intro acc h
    obtain ⟨d, hd, _⟩ := h
    exact absurd hd (by simp)
  | cons d0 ds ih =>
    intro acc h
    unfold evalDirs
    dsimp only
    by_cases htrig : g.winLength ≤
        chainCount g pi r c d0.1 d0.2 (-1) + chainCount g pi r c d0.1 d0.2 1 + 1
    · rw [if_pos htrig]
    · rw [if_neg htrig]
      obtain ⟨d, hd, htr⟩ := h
      have hd' : d ∈ ds := by
        rcases List.mem_cons.mp hd with he | hm
        · rw [he] at htr
          exact absurd htr htrig
        · exact hm
      by_cases hsp : g.winLength ≤ 1 + spaceCount g pi r c d0.1 d0.2 (-1) +
          spaceCount g pi r c d0.1 d0.2 1
      · rw [if_pos hsp]
        exact ih _ ⟨d, hd', htr⟩
      · rw [if_neg hsp]
        exact ih _ ⟨d, hd', htr⟩

theorem evalDirs_low (g : Game) (pi : Nat) (r c : Int) :
    ∀ (ds : List (Int × Int)) (acc : Nat),
      (∀ d ∈ ds, chainCount g pi r c d.1 d.2 (-1) + chainCount g pi r c d.1 d.2 1 + 1 <
        g.winLength) →
      acc ≤ 12 * g.winLength + 1 →
      evalDirs g pi r c ds acc ≤ 12 * g.winLength + 1 := by
  intro ds
  induction ds with
  | nil =>
    intro acc _ hacc
    unfold evalDirs
    by_cases h0 : 0 < acc
    · rw [if_pos h0]; exact hacc
    · rw [if_neg h0]; omega
  | cons d0 ds ih =>
    intro acc hall hacc
    unfold evalDirs
    dsimp only
    have hnt := hall d0 (by simp)
    rw [if_neg (by omega)]
    have hch : chainCount g pi r c d0.1 d0.2 (-1) + chainCount g pi r c d0.1 d0.2 1 ≤
        g.winLength - 2 := by omega
    have hsp1 := spaceCount_le g pi r c d0.1 d0.2 (-1)
    have hsp2 := spaceCount_le g pi r c d0.1 d0.2 1
    by_cases hsp : g.winLength ≤ 1 + spaceCount g pi r c d0.1 d0.2 (-1) +
        spaceCount g pi r c d0.1 d0.2 1
    · rw [if_pos hsp]
      apply ih _ (fun d hd => hall d (by simp [hd]))
      have : (chainCount g pi r c d0.1 d0.2 (-1) + chainCount g pi r c d0.1 d0.2 1) * 10 +
          (1 + spaceCount g pi r c d0.1 d0.2 (-1) + spaceCount g pi r c d0.1 d0.2 1) ≤
          12 * g.winLength + 1 := by omega
      omega
    · rw [if_neg hsp]
      exact ih _ (fun d hd => hall d (by simp [hd])) hacc

theorem cellMatchesAI_pos_congr (g : Game) (pi : Nat) (pos1 pos2 : Int × Int) (h : pos1 = pos2)
    (hm : cellMatchesAI g pi pos1 = true) : cellMatchesAI g pi pos2 = true := h ▸ hm

theorem completes_trigger (g : Game) (m : Nat × Nat) (pi : Nat)
    (hc : completesWin g m pi) :
    ∃ d ∈ dirs4, g.winLength ≤
      chainCount g pi (m.1 : Int) (m.2 : Int) d.1 d.2 (-1) +
        chainCount g pi (m.1 : Int) (m.2 : Int) d.1 d.2 1 + 1 := by
  obtain ⟨d, hd, k, hk, hall⟩ := hc
  refine ⟨d, hd, ?_⟩
  have hneg : k ≤ chainCount g pi (m.1 : Int) (m.2 : Int) d.1 d.2 (-1) := by
    apply chainCount_ge _ _ _ _ _ _ _ k (by omega)
    intro j hj1 hjk
    have hik : k - j < g.winLength := by omega
    rcases hall (k - j) hik with he | hm
    · exact absurd he (by omega)
    · refine cellMatchesAI_pos_congr g pi _ _ ?_ hm
      have hmul : (((k - j : Nat) : Int) - (k : Int)) = (j : Int) * (-1) := by omega
      apply Prod.ext
      · show (m.1 : Int) + d.1 * (((k - j : Nat) : Int) - (k : Int)) =
          (m.1 : Int) + d.1 * (j : Int) * (-1)
        rw [hmul, mul_assoc]
      · show (m.2 : Int) + d.2 * (((k - j : Nat) : Int) - (k : Int)) =
          (m.2 : Int) + d.2 * (j : Int) * (-1)
        rw [hmul, mul_assoc]
  have hpos : g.winLength - 1 - k ≤ chainCount g pi (m.1 : Int) (m.2 : Int) d.1 d.2 1 := by
    apply chainCount_ge _ _ _ _ _ _ _ (g.winLength - 1 - k) (by omega)
    intro j hj1 hjk
    have hik : k + j < g.winLength := by omega
    rcases hall (k + j) hik with he | hm
    · exact absurd he (by omega)
    · refine cellMatchesAI_pos_congr g pi _ _ ?_ hm
      have hmul : (((k + j : Nat) : Int) - (k : Int)) = (j : Int) * 1 := by omega
      apply Prod.ext
      · show (m.1 : Int) + d.1 * (((k + j : Nat) : Int) - (k : Int)) =
          (m.1 : Int) + d.1 * (j : Int) * 1
        rw [hmul, mul_assoc]
      · show (m.2 : Int) + d.2 * (((k + j : Nat) : Int) - (k : Int)) =
          (m.2 : Int) + d.2 * (j : Int) * 1
        rw [hmul, mul_assoc]
  omega

theorem trigger_completes (g : Game) (m : Nat × Nat) (pi : Nat) (d : Int × Int)
    (hd : d ∈ dirs4) (hw : 1 ≤ g.winLength)
    (htr : g.winLength ≤ chainCount g pi (m.1 : Int) (m.2 : Int) d.1 d.2 (-1) +
      chainCount g pi (m.1 : Int) (m.2 : Int) d.1 d.2 1 + 1) :
    completesWin g m pi := by
  have hle1 := chainCount_le g pi (m.1 : Int) (m.2 : Int) d.1 d.2 (-1)
  have hle2 := chainCount_le g pi (m.1 : Int) (m.2 : Int) d.1 d.2 1
  refine ⟨d, hd, chainCount g pi (m.1 : Int) (m.2 : Int) d.1 d.2 (-1), by omega, ?_⟩
  intro i hi
  by_cases hik : i = chainCount g pi (m.1 : Int) (m.2 : Int) d.1 d.2 (-1)
  · exact Or.inl hik
  · refine Or.inr ?_
    by_cases hlt : i < chainCount g pi (m.1 : Int) (m.2 : Int) d.1 d.2 (-1)
    · have hj : chainCount g pi (m.1 : Int) (m.2 : Int) d.1 d.2 (-1) - i - 1 <
          chainCount g pi (m.1 : Int) (m.2 : Int) d.1 d.2 (-1) := by omega
      have hm := chainCount_all g pi (m.1 : Int) (m.2 : Int) d.1 d.2 (-1) _ hj
      refine cellMatchesAI_pos_congr g pi _ _ ?_ hm
      have hmul : ((( chainCount g pi (m.1 : Int) (m.2 : Int) d.1 d.2 (-1) - i - 1 : Nat) : Int) + 1) * (-1) =
          (i : Int) - ((chainCount g pi (m.1 : Int) (m.2 : Int) d.1 d.2 (-1) : Nat) : Int) := by
        omega
      apply Prod.ext
      · show (m.1 : Int) + d.1 * _ * (-1) = (m.1 : Int) + d.1 * _
        rw [mul_assoc, hmul]
      · show (m.2 : Int) + d.2 * _ * (-1) = (m.2 : Int) + d.2 * _
        rw [mul_assoc, hmul]
    · have hgt : chainCount g pi (m.1 : Int) (m.2 : Int) d.1 d.2 (-1) < i := by omega
      have hj : i - chainCount g pi (m.1 : Int) (m.2 : Int) d.1 d.2 (-1) - 1 <
          chainCount g pi (m.1 : Int) (m.2 : Int) d.1 d.2 1 := by omega
      have hm := chainCount_all g pi (m.1 : Int) (m.2 : Int) d.1 d.2 1 _ hj
      refine cellMatchesAI_pos_congr g pi _ _ ?_ hm
      have hmul : (((i - chainCount g pi (m.1 : Int) (m.2 : Int) d.1 d.2 (-1) - 1 : Nat) : Int) + 1) * 1 =
          (i : Int) - ((chainCount g pi (m.1 : Int) (m.2 : Int) d.1 d.2 (-1) : Nat) : Int) := by
        omega
      apply Prod.ext
      · show (m.1 : Int) + d.1 * _ * 1 = (m.1 : Int) + d.1 * _
        rw [mul_assoc, hmul]
      · show (m.2 : Int) + d.2 * _ * 1 = (m.2 : Int) + d.2 * _
        rw [mul_assoc, hmul]

theorem pickBest_keep (g : Game) (pi : Nat) :
    ∀ (ms : List (Nat × Nat)) (mb : Nat × Nat),
      (∀ m ∈ ms, evaluateMove g m pi ≤ 1000) →
      pickBest g pi ms (some mb, 1000) = (some mb, 1000) := by
  intro ms
  induction ms with
  | nil => intro mb _; rfl
  | cons m ms ih =>
    intro mb hall
    unfold pickBest
    dsimp only
    rw [if_neg (by
      have := hall m (by simp)
      push_cast
      omega)]
    exact ih mb (fun m' hm' => hall m' (by simp [hm']))

theorem pickBest_unique (g : Game) (pi : Nat) (mstar : Nat × Nat)
    (hstar : evaluateMove g mstar pi = 1000) :
    ∀ (ms : List (Nat × Nat)) (acc : Option (Nat × Nat) × Int),
      mstar ∈ ms →
      (∀ m ∈ ms, m ≠ mstar → evaluateMove g m pi < 1000) →
      acc.2 < 1000 →
      (pickBest g pi ms acc).1 = some mstar := by
  intro ms
  induction ms with
  | nil => intro acc h _ _; exact absurd h (by simp)
  | cons m ms ih =>
    intro acc hmem hlow hacc
    unfold pickBest
    dsimp only
    by_cases hem : m = mstar
    · rw [hem, hstar]
      rw [if_pos (by push_cast; omega)]
      have hres := pickBest_keep g pi ms mstar (fun m' hm' => by
        by_cases h' : m' = mstar
        · rw [h', hstar]
        · exact le_of_lt (hlow m' (by simp [hm']) h'))
      norm_cast
      rw [hres]
    · have hmem' : mstar ∈ ms := by
        rcases List.mem_cons.mp hmem with he | hm'
        · exact absurd he.symm hem
        · exact hm'
      have hmlow : evaluateMove g m pi < 1000 := hlow m (by simp) hem
      by_cases hcmp : acc.2 < (evaluateMove g m pi : Int)
      · rw [if_pos hcmp]
        exact ih (some m, (evaluateMove g m pi : Int)) hmem'
          (fun m' hm' hne => hlow m' (by simp [hm']) hne) (by push_cast; omega)
      · rw [if_neg hcmp]
        exact ih acc hmem' (fun m' hm' hne => hlow m' (by simp [hm']) hne) hacc

/-- Claim C8: with `winLength = 4`, when exactly one valid move `m`
completes a contiguous four-in-a-row for the moving player (`completesWin`),
`evaluateMove` scores `m` at 1000, every other valid move scores below
1000, and the Offensive AI's max-score selection `getMove` returns `m`. -/
theorem offensive_ai_takes_win (g : Game) (m : Nat × Nat) (pi : Nat)
    (hw : g.winLength = 4)
    (hmem : m ∈ getValidMoves g)
    (hc : completesWin g m pi)
    (hu : ∀ m' ∈ getValidMoves g, m' ≠ m → ¬ completesWin g m' pi) :
    evaluateMove g m pi = 1000 ∧
      (∀ m' ∈ getValidMoves g, m' ≠ m → evaluateMove g m' pi < 1000) ∧
      OffensiveAI.getMove g pi = some m := by
  have h1000 : evaluateMove g m pi = 1000 := by
    unfold evaluateMove
    exact evalDirs_wins g pi _ _ dirs4 0 (completes_trigger g m pi hc)
  have hlow : ∀ m' ∈ getValidMoves g, m' ≠ m → evaluateMove g m' pi < 1000 := by
    intro m' hm' hne
    have hnc := hu m' hm' hne
    have hall : ∀ d ∈ dirs4,
        chainCount g pi (m'.1 : Int) (m'.2 : Int) d.1 d.2 (-1) +
          chainCount g pi (m'.1 : Int) (m'.2 : Int) d.1 d.2 1 + 1 < g.winLength := by
      intro d hd
      by_contra hge
      push_neg at hge
      exact hnc (trigger_completes g m' pi d hd (by omega) hge)
    have hbound : evaluateMove g m' pi ≤ 12 * g.winLength + 1 := by
      unfold evaluateMove
      exact evalDirs_low g pi _ _ dirs4 0 hall (by omega)
    omega
  refine ⟨h1000, hlow, ?_⟩
  unfold OffensiveAI.getMove
  exact pickBest_unique g pi m h1000 (getValidMoves g) (none, -1) hmem hlow (by omega)

/-- Witness for C8: on a 1×4 board `[0,0,0,·]` with `winLength = 4`, the
only valid move is the completion cell (0,3), and the Offensive AI picks it
with score 1000. -/
theorem offensive_ai_takes_win_witness :
    (0, 3) ∈ getValidMoves gOffW ∧ completesWin gOffW (0, 3) 0 ∧
      evaluateMove gOffW (0, 3) 0 = 1000 ∧ OffensiveAI.getMove gOffW 0 = some (0, 3) := by
  have h := offensive_ai_takes_win gOffW (0, 3) 0 (by decide) (by decide) (by decide)
    (by decide)
  exact ⟨by decide, by decide, h.1, h.2.2⟩

/-
Claims C4 and C10: gravity application terminates (potential measure),
is idempotent, and preserves the piece counts.
-/

theorem gravGo_inbounds_or_self (g : Game) (dr dc : Int) :
    ∀ (fuel : Nat) (r c : Int),
      gravGo g dr dc fuel r c = (r, c) ∨
        (0 ≤ (gravGo g dr dc fuel r c).1 ∧ (gravGo g dr dc fuel r c).1 < (g.height : Int) ∧
          0 ≤ (gravGo g dr dc fuel r c).2 ∧ (gravGo g dr dc fuel r c).2 < (g.width : Int)) := by
  intro fuel
  induction fuel with
  | zero => intro r c; exact Or.inl rfl
  | succ n ih =>
    intro r c
    unfold gravGo
    dsimp only
    by_cases hblk : r + dr < 0 ∨ (g.height : Int) ≤ r + dr ∨ c + dc < 0 ∨
        (g.width : Int) ≤ c + dc ∨ cellAt g (r + dr) (c + dc) ≠ none
    · rw [if_pos hblk]
      exact Or.inl rfl
    · rw [if_neg hblk]
      push_neg at hblk
      rcases ih (r + dr) (c + dc) with h | h
      · rw [h]
        exact Or.inr ⟨by omega, by omega, by omega, by omega⟩
      · exact Or.inr h

theorem gravGo_empty_or_self (g : Game) (dr dc : Int) :
    ∀ (fuel : Nat) (r c : Int),
      gravGo g dr dc fuel r c = (r, c) ∨
        cellAt g (gravGo g dr dc fuel r c).1 (gravGo g dr dc fuel r c).2 = none := by
  intro fuel
  induction fuel with
  | zero => intro r c; exact Or.inl rfl
  | succ n ih =>
    intro r c
    unfold gravGo
    dsimp only
    by_cases hblk : r + dr < 0 ∨ (g.height : Int) ≤ r + dr ∨ c + dc < 0 ∨
        (g.width : Int) ≤ c + dc ∨ cellAt g (r + dr) (c + dc) ≠ none
    · rw [if_pos hblk]
      exact Or.inl rfl
    · rw [if_neg hblk]
      push_neg at hblk
      rcases ih (r + dr) (c + dc) with h | h
      · rw [h]
        exact Or.inr hblk.2.2.2.2
      · exact Or.inr h

theorem target_restDist_lt (g : Game) (r c : Nat) (hr : r < g.height) (hc : c < g.width)
    (hne : getGravityTarget g (r : Int) (c : Int) ≠ ((r : Int), (c : Int))) :
    (0 ≤ (getGravityTarget g (r : Int) (c : Int)).1 ∧
      (getGravityTarget g (r : Int) (c : Int)).1 < (g.height : Int) ∧
      0 ≤ (getGravityTarget g (r : Int) (c : Int)).2 ∧
      (getGravityTarget g (r : Int) (c : Int)).2 < (g.width : Int)) ∧
    restDist g.gravityDirection g.height g.width
        (getGravityTarget g (r : Int) (c : Int)).1.toNat
        (getGravityTarget g (r : Int) (c : Int)).2.toNat <
      restDist g.gravityDirection g.height g.width r c := by
  by_cases hgr : g.gravity = false
  · exact absurd (by unfold getGravityTarget; rw [if_pos hgr]) hne
  · have hbounds : 0 ≤ (getGravityTarget g (r : Int) (c : Int)).1 ∧
        (getGravityTarget g (r : Int) (c : Int)).1 < (g.height : Int) ∧
        0 ≤ (getGravityTarget g (r : Int) (c : Int)).2 ∧
        (getGravityTarget g (r : Int) (c : Int)).2 < (g.width : Int) := by
      unfold getGravityTarget at hne ⊢
      rw [if_neg hgr] at hne ⊢
      rcases gravGo_inbounds_or_self g _ _ (g.height + g.width) (r : Int) (c : Int) with h | h
      · exact absurd h hne
      · exact h
    refine ⟨hbounds, ?_⟩
    unfold getGravityTarget at hne hbounds ⊢
    rw [if_neg hgr] at hne hbounds ⊢
    obtain ⟨k, hk⟩ := gravGo_offset g (dirDelta g.gravityDirection).1
      (dirDelta g.gravityDirection).2 (g.height + g.width) (r : Int) (c : Int)
    rw [hk] at hne hbounds ⊢
    cases hdir : g.gravityDirection <;>
      rw [hdir] at hne hbounds <;>
      simp only [dirDelta, restDist] at hne hbounds ⊢
    ·
      have hkpos : 1 ≤ k := by
        by_contra hk0
        push_neg at hk0
        interval_cases k
        · exact hne (by norm_num)
      have h1 : ((r : Int) + 1 * (k : Int)).toNat = r + k := by omega
      rw [h1]
      have hb := hbounds.2.1
      omega
    ·
      have hkpos : 1 ≤ k := by
        by_contra hk0
        push_neg at hk0
        interval_cases k
        · exact hne (by norm_num)
      have hb0 := hbounds.1
      have h1 : ((r : Int) + (-1) * (k : Int)).toNat = r - k := by omega
      rw [h1]
      omega
    ·
      have hkpos : 1 ≤ k := by
        by_contra hk0
        push_neg at hk0
        interval_cases k
        · exact hne (by norm_num)
      have h2 : ((c : Int) + 1 * (k : Int)).toNat = c + k := by omega
      rw [h2]
      have hb := hbounds.2.2.2
      omega
    ·
      have hkpos : 1 ≤ k := by
        by_contra hk0
        push_neg at hk0
        interval_cases k
        · exact hne (by norm_num)
      have hb0 := hbounds.2.2.1
      have h2 : ((c : Int) + (-1) * (k : Int)).toNat = c - k := by omega
      rw [h2]
      omega

theorem shaped_row (g : Game) (b : Board) (hs : shaped { g with board := b })
    (r : Nat) (hr : r < g.height) : ∃ row, b.get? r = some row ∧ row.length = g.width := by
  obtain ⟨hlen, hrows⟩ := hs
  cases hrow : b.get? r with
  | none =>
    have : b.length ≤ r := List.get?_eq_none.mp hrow
    have hbl : b.length = g.height := hlen
    omega
  | some row => exact ⟨row, rfl, hrows row (List.get?_mem hrow)⟩

theorem mem_insBy (pref : α → α → Bool) (a : α) :
    ∀ (l : List α) (x : α), x ∈ insBy pref a l → x = a ∨ x ∈ l := by
  intro l
  induction l with
  | nil => intro x hx; simp [insBy] at hx; exact Or.inl hx
  | cons y ys ih =>
    intro x hx
    unfold insBy at hx
    by_cases hp : pref a y = true
    · rw [if_pos hp] at hx
      rcases List.mem_cons.mp hx with h | h
      · exact Or.inl h
      · exact Or.inr h
    · rw [if_neg hp] at hx
      rcases List.mem_cons.mp hx with h | h
      · exact Or.inr (List.mem_cons.mpr (Or.inl h))
      · rcases ih x h with h' | h'
        · exact Or.inl h'
        · exact Or.inr (List.mem_cons.mpr (Or.inr h'))

theorem mem_sortByPref (pref : α → α → Bool) :
    ∀ (l : List α) (x : α), x ∈ sortByPref pref l → x ∈ l := by
  intro l
  induction l with
  | nil => intro x hx; exact hx
  | cons y ys ih =>
    intro x hx
    unfold sortByPref at hx
    rcases mem_insBy pref y _ x hx with h | h
    · exact List.mem_cons.mpr (Or.inl h)
    · exact List.mem_cons.mpr (Or.inr (ih x h))

theorem mem_sortPositions (d : Dir) (ps : List (Nat × Nat)) (x : Nat × Nat)
    (hx : x ∈ sortPositions d ps) : x ∈ ps := by
  cases d <;> exact mem_sortByPref _ ps x hx

theorem gravPassStep_spec (g : Game) (p : Nat × Nat)
    (hp1 : p.1 < g.height) (hp2 : p.2 < g.width) (hs : shaped g) :
    shaped (gravPassStep g p).1 ∧
    (∀ i, countPieces (gravPassStep g p).1 i = countPieces g i) ∧
    potential (gravPassStep g p).1 ≤ potential g ∧
    ((gravPassStep g p).2 = true → potential (gravPassStep g p).1 < potential g) := by
  unfold gravPassStep
  cases hcell : cellAt g p.1 p.2 with
  | none => exact ⟨hs, fun i => rfl, le_refl _, fun h => absurd h (by simp)⟩
  | some v =>
    dsimp only
    by_cases ht : (getGravityTarget g p.1 p.2).1 ≠ (p.1 : Int) ∨
        (getGravityTarget g p.1 p.2).2 ≠ (p.2 : Int)
    · rw [if_pos ht]
      have hne : getGravityTarget g (p.1 : Int) (p.2 : Int) ≠ ((p.1 : Int), (p.2 : Int)) := by
        intro h
        rcases ht with h1 | h1
        · exact h1 (by rw [h])
        · exact h1 (by rw [h])
      obtain ⟨hb, hlt⟩ := target_restDist_lt g p.1 p.2 hp1 hp2 hne
      have hempty : cellAt g (getGravityTarget g (p.1 : Int) (p.2 : Int)).1
          (getGravityTarget g (p.1 : Int) (p.2 : Int)).2 = none := by
        unfold getGravityTarget at hne ⊢
        by_cases hgr : g.gravity = false
        · rw [if_pos hgr] at hne
          exact absurd rfl hne
        · rw [if_neg hgr] at hne ⊢
          rcases gravGo_empty_or_self g (dirDelta g.gravityDirection).1
              (dirDelta g.gravityDirection).2 (g.height + g.width) (p.1 : Int) (p.2 : Int)
            with h | h
          · exact absurd h hne
          · exact h
      obtain ⟨rn, hrn⟩ : ∃ rn : Nat, (getGravityTarget g (p.1 : Int) (p.2 : Int)).1 = (rn : Int) :=
        ⟨(getGravityTarget g (p.1 : Int) (p.2 : Int)).1.toNat, (Int.toNat_of_nonneg hb.1).symm⟩
      obtain ⟨cn, hcn⟩ : ∃ cn : Nat, (getGravityTarget g (p.1 : Int) (p.2 : Int)).2 = (cn : Int) :=
        ⟨(getGravityTarget g (p.1 : Int) (p.2 : Int)).2.toNat,
          (Int.toNat_of_nonneg hb.2.2.1).symm⟩
      rw [hrn, hcn] at hempty hlt hb ⊢
      have htn1 : ((rn : Int)).toNat = rn := rfl
      have htn2 : ((cn : Int)).toNat = cn := rfl
      rw [htn1, htn2] at hlt ⊢
      have rnh : rn < g.height := by exact_mod_cast hb.2.1
      have cnw : cn < g.width := by exact_mod_cast hb.2.2.2
      have hqp : (rn, cn) ≠ (p.1, p.2) := by
        intro h
        apply hne
        have h1 : rn = p.1 := congrArg Prod.fst h
        have h2 : cn = p.2 := congrArg Prod.snd h
        apply Prod.ext
        · rw [hrn, h1]
        · rw [hcn, h2]
      have hs1 : shaped { g with board := setCell g.board rn cn (some v) } :=
        shaped_board_set g g.board rn cn (some v) hs
      have hs2 : shaped { g with board := (setCell (setCell g.board rn cn (some v)) p.1 p.2 none) } :=
        shaped_board_set g _ p.1 p.2 none hs1
      have hcp : cellAt { g with board := (setCell (setCell g.board rn cn (some v)) p.1 p.2 none) }
            (p.1 : Int) (p.2 : Int) = none := by
        obtain ⟨row1, hrow1, hlen1⟩ := shaped_row g _ hs1 p.1 hp1
        exact cellAt_set_same g _ p.1 p.2 none row1 hrow1 (by omega) hp1 hp2
      have hcq : cellAt { g with board := (setCell (setCell g.board rn cn (some v)) p.1 p.2 none) }
            (rn : Int) (cn : Int) = some v := by
        rw [cellAt_set_other g _ p.1 p.2 none rn cn hqp]
        obtain ⟨row0, hrow0, hlen0⟩ := shaped_row g g.board hs rn rnh
        exact cellAt_set_same g g.board rn cn (some v) row0 hrow0 (by omega) rnh cnw
      have hco : ∀ x : Nat × Nat, x ≠ (p.1, p.2) → x ≠ (rn, cn) →
          cellAt { g with board := (setCell (setCell g.board rn cn (some v)) p.1 p.2 none) }
              (x.1 : Int) (x.2 : Int) =
            cellAt g (x.1 : Int) (x.2 : Int) := by
        intro x hxp hxq
        rw [cellAt_set_other g _ p.1 p.2 none x.1 x.2 (by rw [Prod.mk.eta]; exact hxp),
          cellAt_set_other g g.board rn cn (some v) x.1 x.2 (by rw [Prod.mk.eta]; exact hxq)]
      have hmem_p : (p.1, p.2) ∈ Finset.range g.height ×ˢ Finset.range g.width :=
        Finset.mem_product.mpr ⟨Finset.mem_range.mpr hp1, Finset.mem_range.mpr hp2⟩
      have hmem_q : (rn, cn) ∈ Finset.range g.height ×ˢ Finset.range g.width :=
        Finset.mem_product.mpr ⟨Finset.mem_range.mpr rnh, Finset.mem_range.mpr cnw⟩
      have hcount : ∀ i, countPieces { g with board := (setCell (setCell g.board rn cn (some v)) p.1 p.2 none) } i = countPieces g i := by
        intro i
        have key := sum_update_two (Finset.range g.height ×ˢ Finset.range g.width)
          (fun x => if cellAt g (x.1 : Int) (x.2 : Int) = some i then 1 else 0)
          (fun x => if cellAt { g with board := (setCell (setCell g.board rn cn (some v)) p.1 p.2 none) }
                (x.1 : Int) (x.2 : Int) = some i then 1 else 0)
          (p.1, p.2) (rn, cn) hmem_p hmem_q (Ne.symm hqp)
          (fun x _ hx1 hx2 => by dsimp only; rw [hco x hx1 hx2])
        dsimp only at key
        rw [hcp, hcq, hcell, hempty] at key
        have e1 : (if (none : Option Nat) = some i then (1 : Nat) else 0) = 0 := by simp
        rw [e1] at key
        have c2 : countPieces { g with board := (setCell (setCell g.board rn cn (some v)) p.1 p.2 none) } i =
            ∑ x ∈ Finset.range g.height ×ˢ Finset.range g.width,
              if cellAt { g with board := (setCell (setCell g.board rn cn (some v)) p.1 p.2 none) }
                  (x.1 : Int) (x.2 : Int) = some i then 1 else 0 := rfl
        have c1 : countPieces g i =
            ∑ x ∈ Finset.range g.height ×ˢ Finset.range g.width,
              if cellAt g (x.1 : Int) (x.2 : Int) = some i then 1 else 0 := rfl
        rw [c1, c2]
        omega
      have hpot : potential { g with board := (setCell (setCell g.board rn cn (some v)) p.1 p.2 none) } < potential g := by
        have key := sum_update_two (Finset.range g.height ×ˢ Finset.range g.width)
          (fun x => if cellAt g (x.1 : Int) (x.2 : Int) ≠ none
            then restDist g.gravityDirection g.height g.width x.1 x.2 else 0)
          (fun x => if cellAt { g with board := (setCell (setCell g.board rn cn (some v)) p.1 p.2 none) }
                (x.1 : Int) (x.2 : Int) ≠ none
            then restDist g.gravityDirection g.height g.width x.1 x.2 else 0)
          (p.1, p.2) (rn, cn) hmem_p hmem_q (Ne.symm hqp)
          (fun x _ hx1 hx2 => by dsimp only; rw [hco x hx1 hx2])
        dsimp only at key
        rw [hcp, hcq, hcell, hempty] at key
        have e1 : ∀ d : Nat, (if (none : Option Nat) ≠ none then d else 0) = 0 :=
          fun d => by simp
        have e2 : ∀ d : Nat, (if (some v : Option Nat) ≠ none then d else 0) = d :=
          fun d => by simp
        simp only [e1, e2] at key
        have c2 : potential { g with board := (setCell (setCell g.board rn cn (some v)) p.1 p.2 none) } =
            ∑ x ∈ Finset.range g.height ×ˢ Finset.range g.width,
              if cellAt { g with board := (setCell (setCell g.board rn cn (some v)) p.1 p.2 none) }
                  (x.1 : Int) (x.2 : Int) ≠ none
              then restDist g.gravityDirection g.height g.width x.1 x.2 else 0 := rfl
        have c1 : potential g =
            ∑ x ∈ Finset.range g.height ×ˢ Finset.range g.width,
              if cellAt g (x.1 : Int) (x.2 : Int) ≠ none
              then restDist g.gravityDirection g.height g.width x.1 x.2 else 0 := rfl
        rw [c1, c2]
        omega
      exact ⟨hs2, hcount, le_of_lt hpot, fun _ => hpot⟩
    · rw [if_neg ht]
      exact ⟨hs, fun i => rfl, le_refl _, fun h => absurd h (by simp)⟩

theorem gravPassFold_spec : ∀ (ps : List (Nat × Nat)) (g : Game) (b : Bool),
    (∀ q ∈ ps, q.1 < g.height ∧ q.2 < g.width) → shaped g →
    shaped (gravPassFold (g, b) ps).1 ∧
    (∀ i, countPieces (gravPassFold (g, b) ps).1 i = countPieces g i) ∧
    potential (gravPassFold (g, b) ps).1 ≤ potential g ∧
    ((gravPassFold (g, b) ps).2 = true → b = true ∨
      potential (gravPassFold (g, b) ps).1 < potential g) := by
  intro ps
  induction ps with
  | nil =>
    intro g b _ hs
    exact ⟨hs, fun i => rfl, le_refl _, fun h => Or.inl h⟩
  | cons q ps ih =>
    intro g b hbound hs
    unfold gravPassFold
    dsimp only
    have hq := hbound q (List.mem_cons.mpr (Or.inl rfl))
    have step := gravPassStep_spec g q hq.1 hq.2 hs
    have hH : (gravPassStep g q).1.height = g.height := by rw [gravPassStep_fields g q]
    have hW : (gravPassStep g q).1.width = g.width := by rw [gravPassStep_fields g q]
    have hbound' : ∀ x ∈ ps, x.1 < (gravPassStep g q).1.height ∧
        x.2 < (gravPassStep g q).1.width := by
      intro x hx
      rw [hH, hW]
      exact hbound x (List.mem_cons.mpr (Or.inr hx))
    have rest := ih (gravPassStep g q).1 (b || (gravPassStep g q).2) hbound' step.1
    refine ⟨rest.1, fun i => (rest.2.1 i).trans (step.2.1 i),
      le_trans rest.2.2.1 step.2.2.1, fun hf => ?_⟩
    rcases rest.2.2.2 hf with hb1 | hlt
    · rcases (by simpa using hb1 : b = true ∨ (gravPassStep g q).2 = true) with h | h
      · exact Or.inl h
      · exact Or.inr (lt_of_le_of_lt rest.2.2.1 (step.2.2.2 h))
    · exact Or.inr (lt_of_lt_of_le hlt step.2.2.1)

theorem gravPass_spec (g : Game) (hs : shaped g) :
    shaped (gravPass g).1 ∧
    (∀ i, countPieces (gravPass g).1 i = countPieces g i) ∧
    potential (gravPass g).1 ≤ potential g ∧
    ((gravPass g).2 = true → potential (gravPass g).1 < potential g) := by
  have hbound : ∀ q ∈ sortPositions g.gravityDirection (collectPositions g),
      q.1 < g.height ∧ q.2 < g.width := by
    intro q hq
    have hq2 : q ∈ collectPositions g := mem_sortPositions _ _ q hq
    have hq3 : q ∈ posList g := List.mem_of_mem_filter hq2
    exact (mem_posList g q).mp hq3
  have h := gravPassFold_spec (sortPositions g.gravityDirection (collectPositions g))
    g false hbound hs
  exact ⟨h.1, h.2.1, h.2.2.1, fun hf => (h.2.2.2 hf).resolve_left (by simp)⟩

theorem applyGravityLoop_total : ∀ (n : Nat) (g : Game), shaped g → potential g < n →
    ∃ g', applyGravityLoop n g = some g' := by
  intro n
  induction n with
  | zero => intro g _ h; omega
  | succ m ih =>
    intro g hs hp
    unfold applyGravityLoop
    dsimp only
    cases hc : (gravPass g).2 with
    | false =>
      exact ⟨(gravPass g).1, by simp⟩
    | true =>
      have hspec := gravPass_spec g hs
      have hlt := hspec.2.2.2 hc
      obtain ⟨g', hg'⟩ := ih (gravPass g).1 hspec.1 (by omega)
      exact ⟨g', by simpa using hg'⟩

theorem applyGravityLoop_counts : ∀ (n : Nat) (g g' : Game), shaped g →
    applyGravityLoop n g = some g' → ∀ i, countPieces g' i = countPieces g i := by
  intro n
  induction n with
  | zero => intro g g' _ h; exact absurd h (by simp [applyGravityLoop])
  | succ m ih =>
    intro g g' hs h
    unfold applyGravityLoop at h
    dsimp only at h
    cases hc : (gravPass g).2 with
    | false =>
      rw [hc] at h
      simp only [if_neg (by simp : ¬(false = true))] at h
      intro i
      rw [← Option.some_inj.mp h]
      exact (gravPass_spec g hs).2.1 i
    | true =>
      rw [hc] at h
      simp only [if_pos rfl] at h
      have hspec := gravPass_spec g hs
      intro i
      exact (ih (gravPass g).1 g' hspec.1 h i).trans (hspec.2.1 i)

theorem applyGravityLoop_fix (n : Nat) (g : Game) (h : gravPass g = (g, false)) :
    applyGravityLoop (n + 1) g = some g := by
  unfold applyGravityLoop
  dsimp only
  rw [h]
  simp

/-
Claim C4: applyGravity is idempotent, and a no-op when gravity is off.
-/

/-- Claim C4: for every well-shaped game state (any board contents, gravity
direction and gravity setting), the `applyGravity` loop terminates normally
within its fuel, running `applyGravity` twice consecutively yields exactly
the same state as running it once, and when gravity is disabled
`applyGravity` leaves the state unchanged. -/
theorem applyGravity_idempotent (g : Game) (hs : shaped g) :
    (∃ g', applyGravityLoop (potential g + 1) g = some g') ∧
    applyGravityTotal (applyGravityTotal g) = applyGravityTotal g ∧
    (g.gravity = false → applyGravityTotal g = g) := by
  have htot : ∃ g', applyGravityLoop (potential g + 1) g = some g' :=
    applyGravityLoop_total (potential g + 1) g hs (by omega)
  refine ⟨htot, ?_, fun hgr => by unfold applyGravityTotal; rw [if_pos hgr]⟩
  by_cases hgr : g.gravity = false
  · have e : applyGravityTotal g = g := by unfold applyGravityTotal; rw [if_pos hgr]
    rw [e]
    exact e
  · obtain ⟨g', hg'⟩ := htot
    have e1 : applyGravityTotal g = g' := by
      unfold applyGravityTotal
      rw [if_neg hgr, hg']
      rfl
    have hfix := applyGravityLoop_exit (potential g + 1) g g' hg'
    have hgr' : g'.gravity = g.gravity := by
      rw [applyGravityLoop_fields (potential g + 1) g g' hg']
    have e2 : applyGravityTotal g' = g' := by
      unfold applyGravityTotal
      rw [if_neg (by rw [hgr']; exact hgr), applyGravityLoop_fix (potential g') g' hfix]
      rfl
    rw [e1, e2]

theorem applyGravity_idempotent_witness :
    shaped gGravW ∧
    ((∃ g', applyGravityLoop (potential gGravW + 1) gGravW = some g') ∧
      applyGravityTotal (applyGravityTotal gGravW) = applyGravityTotal gGravW ∧
      (gGravW.gravity = false → applyGravityTotal gGravW = gGravW)) :=
  ⟨by decide, applyGravity_idempotent gGravW (by decide)⟩

/-
Claim C10: applyGravity moves pieces but never creates, duplicates or
destroys them.
-/

/-- Claim C10: for every well-shaped game state (any board contents and any
gravity direction) and every player index, `applyGravity` preserves the
number of cells holding that player's index: pieces are moved, never
created, duplicated, or destroyed. -/
theorem applyGravity_preserves_counts (g : Game) (i : Nat) (hs : shaped g) :
    countPieces (applyGravityTotal g) i = countPieces g i := by
  unfold applyGravityTotal
  by_cases hgr : g.gravity = false
  · rw [if_pos hgr]
  · rw [if_neg hgr]
    obtain ⟨g', hg'⟩ := applyGravityLoop_total (potential g + 1) g hs (by omega)
    rw [hg']
    exact applyGravityLoop_counts (potential g + 1) g g' hs hg' i

theorem applyGravity_preserves_counts_witness :
    shaped gGravW ∧ countPieces (applyGravityTotal gGravW) 0 = countPieces gGravW 0 :=
  ⟨by decide, applyGravity_preserves_counts gGravW 0 (by decide)⟩
